import Mathlib

/-!
Verification of the hierarchical upsert accumulator of `dataGather.py`
(`SqlObject.recurse_parse` and its helpers, plus the merge steps of
`FedData._fed_parse` and `BLSData._bls_parse_data`).

The Python data attribute is a nested dict whose values are either nested
dicts or scalar strings; we embed it as `PyTree`.  The mutable state of a
flush (`_db_line`, `_insert_list`, the connection and cursor) is threaded
explicitly through pure functions.  The external MySQL store is modelled
from the spec (section 6) as a list of rows, each row an association list
from field name to an SQL value (`none` is a genuine SQL NULL); issued
statements are recorded structurally in an operation trace.
-/

namespace DataGather

/-- A Python value stored in the nested `data` dict: either a scalar
string or a nested dict (association list in insertion order). -/
inductive PyTree where
  | str (s : String)
  | dict (entries : List (String × PyTree))

-- Decidable equality on `PyTree`, mutually with entry lists.
mutual

def PyTree.decEq : (a b : PyTree) → Decidable (a = b)
  | .str a, .str b =>
      if h : a = b then .isTrue (by rw [h]) else .isFalse (by simpa using h)
  | .str _, .dict _ => .isFalse nofun
  | .dict _, .str _ => .isFalse nofun
  | .dict a, .dict b =>
      match PyTree.decEqList a b with
      | .isTrue h => .isTrue (by rw [h])
      | .isFalse h => .isFalse (by simpa using h)

def PyTree.decEqList : (a b : List (String × PyTree)) → Decidable (a = b)
  | [], [] => .isTrue rfl
  | [], _ :: _ => .isFalse nofun
  | _ :: _, [] => .isFalse nofun
  | (k1, v1) :: r1, (k2, v2) :: r2 =>
      if hk : k1 = k2 then
        match PyTree.decEq v1 v2, PyTree.decEqList r1 r2 with
        | .isTrue h1, .isTrue h2 => .isTrue (by rw [hk, h1, h2])
        | .isFalse h1, _ => .isFalse (by simp [h1])
        | _, .isFalse h2 => .isFalse (by simp [h2])
      else .isFalse (by simp [hk])

end

instance : DecidableEq PyTree := PyTree.decEq

instance : DecidableEq (List (String × PyTree)) := PyTree.decEqList

/-- Entries of a Python dict. -/
abbrev Dict := List (String × PyTree)

/-- An element of `_db_line`: dimension slots hold strings (the keys on
the path), the final slot holds the metric dict being built. -/
inductive Slot where
  | val (s : String)
  | map (m : Dict)
  deriving DecidableEq

/-- An SQL value as it appears in an issued statement: `none` is the
unquoted `NULL` token (a genuine SQL null), `some s` a quoted string. -/
abbrev SqlVal := Option String

/-- Modelled from the spec: a persistent-store row is an assignment of
field names to SQL values (spec section 6, external collaborator). -/
abbrev StoreRow := List (String × SqlVal)

/-- Modelled from the spec: the persistent store is a table of rows. -/
abbrev Store := List StoreRow

/-- A write/read operation issued to the store, recorded structurally:
the equality predicate of a SELECT, the SET pairs and WHERE predicate of
an UPDATE, or the column list and value tuples of a bulk INSERT. -/
inductive DbOp where
  | select (pred : List (String × SqlVal))
  | update (sets : List (String × SqlVal)) (wpred : List (String × SqlVal))
  | insertRows (cols : List String) (rows : List (List SqlVal))
  deriving DecidableEq

/-- Constructor-time configuration of a `SqlObject` (`__init__`):
table name, ordered dimension list, metric list. -/
structure SqlCfg where
  table : String
  dimension_list : List String
  metric_list : List String
  deriving DecidableEq

/-- The mutable state of one flush: `_db_line`, `_insert_list`, the
store reached through `_cnx`/`_cursor`, the trace of executed
operations, the number of SELECTs attempted so far, whether an exception
has been raised, and whether the connection is still open. -/
structure SqlSt where
  db_line : List Slot
  insert_list : List (List Slot)
  store : Store
  ops : List DbOp
  nsel : Nat
  errored : Bool
  connOpen : Bool
  deriving DecidableEq

/-- Python dict assignment `m[k] = v` on an association list: replace
the first binding of `k`, else append at the end. -/
def assocSet {α : Type} (k : String) (v : α) : List (String × α) → List (String × α)
  | [] => [(k, v)]
  | p :: rest => if p.1 = k then (k, v) :: rest else p :: assocSet k v rest

/-- Apply `f` to the last element of a list (`l[-1]` in Python). -/
def mapLast {α : Type} (f : α → α) : List α → List α
  | [] => []
  | [x] => [f x]
  | x :: xs => x :: mapLast f xs

/-- Python substring containment `needle in hay` for strings. -/
def pySubstr (needle hay : String) : Bool :=
  needle = "" || (hay.splitOn needle).length ≥ 2

/-- Shallow approximation of Python `str()` of a dict value, used only
when a dict is interpolated into a query (reachable only on malformed
trees; no theorem depends on its exact text). -/
def pyStrInner : PyTree → String
  | .str s => "'" ++ s ++ "'"
  | .dict _ => "\x7b...\x7d"

/-- Interpolation `"%s" % slot`: a string slot yields the bare string,
a dict slot its repr-like rendering. -/
def renderSlot : Slot → String
  | .val s => s
  | .map m =>
      "\x7b" ++ String.intercalate ", "
        (m.map (fun p => "'" ++ p.1 ++ "': " ++ pyStrInner p.2)) ++ "\x7d"

/-- Python membership `metric not in x` where `x` is a `_db_line` slot:
key membership for a dict, substring containment for a string. -/
def slotHasKey (sl : Slot) (k : String) : Bool :=
  match sl with
  | .map m => (m.map Prod.fst).contains k
  | .val s => pySubstr k s

/-- `m[k] = v` when the slot holds a dict (`_db_line[-1][branch] = ...`);
on a string slot Python would raise, which is unreachable here. -/
def slotSet (k : String) (v : PyTree) : Slot → Slot
  | .map m => .map (assocSet k v m)
  | .val s => .val s

/-- The value a dimension slot contributes to the SELECT predicate
(`dataGather.py` lines 92-96): the comparison `dimension_value == "NULL"`
selects the unquoted `NULL` token, otherwise the value is quoted. -/
def predVal (sl : Slot) : SqlVal :=
  if sl = Slot.val "NULL" then none else some (renderSlot sl)

/-- The SQL value of a metric (`_update` lines 110-113 and `_insert`
lines 134-138): the Python string `"NULL"` becomes the unquoted `NULL`
token, everything else is quoted. -/
def metricVal (t : PyTree) : SqlVal :=
  if t = .str "NULL" then none else some (pyStrPlain t)
where
  /-- Interpolation of a metric value: a string interpolates bare. -/
  pyStrPlain : PyTree → String
  | .str s => s
  | .dict m => (renderSlot (.map m))

/-- The SELECT predicate of `_select` (lines 91-97): the first dimension
is always quoted, the remaining dimensions are zipped against
`_db_line[1:]` with the `"NULL"` special case. -/
def selectPred (cfg : SqlCfg) (line : List Slot) : List (String × SqlVal) :=
  match cfg.dimension_list, line with
  | d0 :: ds, s0 :: ss =>
      (d0, some (renderSlot s0)) :: List.zipWith (fun dn sl => (dn, predVal sl)) ds ss
  | _, _ => []

/-- The WHERE predicate of `_update` (lines 114-117): every dimension
value is quoted, with no `"NULL"` special case. -/
def updatePred (cfg : SqlCfg) (line : List Slot) : List (String × SqlVal) :=
  match cfg.dimension_list, line with
  | d0 :: ds, s0 :: ss =>
      (d0, some (renderSlot s0)) ::
        List.zipWith (fun dn sl => (dn, some (renderSlot sl))) ds ss
  | _, _ => []

/-- Modelled from the spec: executing an equality-predicate read
(spec section 6(a)) — a store row matches when every predicate field
holds exactly the predicate value. -/
def rowMatches (pred : List (String × SqlVal)) (r : StoreRow) : Bool :=
  pred.all (fun p => r.lookup p.1 == some p.2)

/-- Modelled from the spec: applying the SET pairs of an UPDATE to one
store row (spec section 6(b)). -/
def applySets (sets : List (String × SqlVal)) (r : StoreRow) : StoreRow :=
  sets.foldl (fun acc p => assocSet p.1 p.2 acc) r

/-- `_modify_db_line` (lines 81-86): assign at `_rowIndex` if the index
exists, otherwise append. -/
def modify_db_line (branch : Slot) (rowIndex : Nat) (line : List Slot) : List Slot :=
  if rowIndex < line.length then line.set rowIndex branch else line ++ [branch]

/-- The leaf copy loop (lines 69-70): `_db_line[-1][branch] = _dataset[branch]`
for every entry of the dataset. -/
def copyEntries (dataset : Dict) (line : List Slot) : List Slot :=
  dataset.foldl (fun l p => mapLast (slotSet p.1 p.2) l) line

/-- The null-fill loop (lines 71-73): for each declared metric missing
from `_db_line[_rowIndex]`, set it to the string `"NULL"` in
`_db_line[-1]`. -/
def nullFill (cfg : SqlCfg) (rowIndex : Nat) (line : List Slot) : List Slot :=
  cfg.metric_list.foldl
    (fun l met =>
      if slotHasKey (l.getD rowIndex (Slot.map [])) met then l
      else mapLast (slotSet met (.str "NULL")) l)
    line

/-- `_update` (lines 106-119): build the SET pairs from the keys of
`_db_line[-1]`, the always-quoted WHERE predicate, record the statement
and apply it to every matching store row. -/
def updateRow (cfg : SqlCfg) (st : SqlSt) : SqlSt :=
  let sets :=
    match st.db_line.getLast? with
    | some (.map m) => m.map (fun p => (p.1, metricVal p.2))
    | _ => []
  let wpred := updatePred cfg st.db_line
  { st with
    ops := st.ops ++ [DbOp.update sets wpred]
    store := st.store.map (fun r => if rowMatches wpred r then applySets sets r else r) }

/-- `_select` (lines 88-104): issue the existence check over the
current `_db_line` and dispatch — one or more matches calls `_update`,
zero matches buffers a copy of `_db_line` into `_insert_list` without
writing.  `fault` is the failure schedule of the external store: if the
n-th SELECT of the flush faults, the cursor raises and the flush state
is marked errored. -/
def selectLine (cfg : SqlCfg) (fault : Nat → Bool) (st : SqlSt) : SqlSt :=
  if fault st.nsel then
    { st with errored := true, nsel := st.nsel + 1 }
  else
    let pred := selectPred cfg st.db_line
    let st2 := { st with ops := st.ops ++ [DbOp.select pred], nsel := st.nsel + 1 }
    if 1 ≤ (st2.store.filter (rowMatches pred)).length then updateRow cfg st2
    else { st2 with insert_list := st2.insert_list ++ [st2.db_line] }

/-- The leaf handling of `recurse_parse` (lines 68-75): install a fresh
dict at `_rowIndex`, copy the dataset entries into `_db_line[-1]`,
null-fill the missing declared metrics, then run `_select`. -/
def leafSelect (cfg : SqlCfg) (fault : Nat → Bool) (dataset : Dict)
    (rowIndex : Nat) (st : SqlSt) : SqlSt :=
  selectLine cfg fault
    { st with
      db_line := nullFill cfg rowIndex
        (copyEntries dataset (modify_db_line (Slot.map []) rowIndex st.db_line)) }

/-- Render one buffered row into the value tuple of the bulk insert
(lines 131-138): `row[0]`, then `row[1:len(row)-1]`, always quoted, then
each declared metric from `row[-1]` with the `"NULL"` special case.
`none` means Python raised while building the tuple (a missing metric
key or a non-dict last slot). -/
def renderInsertRow (cfg : SqlCfg) (row : List Slot) : Option (List SqlVal) :=
  match row with
  | [] => none
  | r0 :: rest =>
      match (r0 :: rest).getLast? with
      | some (.map fm) =>
          match renderMetrics fm cfg.metric_list with
          | some ms =>
              some (some (renderSlot r0) ::
                ((rest.dropLast).map (fun sl => some (renderSlot sl)) ++ ms))
          | none => none
      | _ => none
where
  /-- Look up and render each declared metric; `none` on a missing key
  (Python `KeyError`). -/
  renderMetrics (fm : Dict) : List String → Option (List SqlVal)
  | [] => some []
  | k :: ks =>
      match fm.lookup k, renderMetrics fm ks with
      | some v, some vs => some (metricVal v :: vs)
      | _, _ => none

/-- Render every row of one statement; `none` if any row fails to
build. -/
def renderRows (cfg : SqlCfg) : List (List Slot) → Option (List (List SqlVal))
  | [] => some []
  | r :: rest =>
      match renderInsertRow cfg r, renderRows cfg rest with
      | some v, some vs => some (v :: vs)
      | _, _ => none

/-- Successive chunks of at most `k` elements, as cut by the nested
while loops of `_insert` (lines 127-141). -/
def chunkList {α : Type} (k : Nat) : List α → List (List α)
  | [] => []
  | x :: xs =>
      if h : k = 0 then []
      else (x :: xs).take k :: chunkList k ((x :: xs).drop k)
termination_by l => l.length
decreasing_by
  simp only [List.length_drop, List.length_cons]
  omega

/-- Execute the chunked insert statements one by one, committing each;
a statement that fails to build or whose tuples do not all have one
value per column raises, keeping the statements already committed. -/
def insChunks (cfg : SqlCfg) (chunks : List (List (List Slot))) (st : SqlSt) : SqlSt :=
  match chunks with
  | [] => st
  | c :: rest =>
      match renderRows cfg c with
      | none => { st with errored := true }
      | some rows =>
          let cols := cfg.dimension_list ++ cfg.metric_list
          if rows.all (fun r => r.length == cols.length) then
            insChunks cfg rest
              { st with
                ops := st.ops ++ [DbOp.insertRows cols rows]
                store := st.store ++ rows.map (fun r => cols.zip r) }
          else { st with errored := true }

/-- `_insert` (lines 121-146): derive the rows-per-statement ceiling
`65535 // fields` and execute the chunks; a ceiling of zero makes the
first statement malformed, which raises. -/
def insertBulk (cfg : SqlCfg) (st : SqlSt) : SqlSt :=
  let maxQ := 65535 / (cfg.dimension_list.length + cfg.metric_list.length)
  if maxQ = 0 then { st with errored := true }
  else insChunks cfg (chunkList maxQ st.insert_list) st

/-- The branch loop of `recurse_parse` (lines 63-75): descend into dict
branches with the key written at `_rowIndex`; on the first non-dict
branch treat the whole dataset as the leaf metric dict and break.  An
exception raised below (`errored`) propagates, skipping the rest. -/
def recList (cfg : SqlCfg) (fault : Nat → Bool) (dataset remaining : Dict)
    (rowIndex : Nat) (st : SqlSt) : SqlSt :=
  if st.errored then st
  else
    match remaining with
    | [] => st
    | (k, v) :: rest =>
        match v with
        | .dict sub =>
            let st1 := { st with db_line := modify_db_line (Slot.val k) rowIndex st.db_line }
            let st2 := recList cfg fault sub sub (rowIndex + 1) st1
            recList cfg fault dataset rest rowIndex st2
        | .str _ => leafSelect cfg fault dataset rowIndex st
termination_by sizeOf remaining
decreasing_by
  · simp only [Prod.mk.sizeOf_spec, PyTree.dict.sizeOf_spec, List.cons.sizeOf_spec]
    omega
  · simp only [List.cons.sizeOf_spec]
    omega

/-- `recurse_parse` at the top level (lines 58-79): connect, traverse,
bulk-insert the pending buffer if nonempty, and close the connection —
the close is reached only when no exception has propagated. -/
def recurse_parse (cfg : SqlCfg) (fault : Nat → Bool) (data : Dict)
    (store : Store) : SqlSt :=
  let st0 : SqlSt :=
    { db_line := [], insert_list := [], store := store, ops := [],
      nsel := 0, errored := false, connOpen := true }
  let st1 := recList cfg fault data data 0 st0
  if st1.errored then st1
  else
    let st2 := if 0 < st1.insert_list.length then insertBulk cfg st1 else st1
    if st2.errored then st2 else { st2 with connOpen := false }

/-- A fault-free store schedule (no SELECT ever fails). -/
def noFault : Nat → Bool := fun _ => false

/-- One merge step of `FedData._fed_parse` (lines 193-196): if the date
key exists, assign only the named output column inside its dict,
otherwise add a new leaf dict for the date at the end.  A scalar at the
date key would make Python raise; it is unreachable because the tree is
built by these merges alone. -/
def fed_merge (data : Dict) (d outputColumn v : String) : Dict :=
  match data.lookup d with
  | some (.dict m) => assocSet d (.dict (assocSet outputColumn (.str v) m)) data
  | some (.str _) => data
  | none => data ++ [(d, .dict [(outputColumn, .str v)])]

/-- One date-level merge step of `BLSData._bls_parse_data` (lines
313-318) inside the dict of one series: a fresh date key gets a new
one-metric dict, an existing date key gets only the named measure
assigned. -/
def bls_merge (seriesMap : Dict) (d measureName v : String) : Dict :=
  match seriesMap.lookup d with
  | none => seriesMap ++ [(d, .dict [(measureName, .str v)])]
  | some (.dict m) => assocSet d (.dict (assocSet measureName (.str v) m)) seriesMap
  | some (.str _) => seriesMap

/-- The metric value stored under a metric name at a given path key, if
the path key holds a leaf dict. -/
def innerLookup (data : Dict) (d metric : String) : Option PyTree :=
  match data.lookup d with
  | some (.dict m) => m.lookup metric
  | _ => none

/-- Whether an operation is a bulk insert. -/
def isInsertOp : DbOp → Bool
  | .insertRows _ _ => true
  | _ => false

/-! ### Specification-side descriptions of the traversal -/

/-- The metric dict built at a leaf: the dataset entries assigned in
order into a fresh dict, then the declared metrics missing from it
filled with the string `"NULL"`. -/
def buildLeafMap (cfg : SqlCfg) (dataset : Dict) : Dict :=
  cfg.metric_list.foldl
    (fun m met =>
      if (m.map Prod.fst).contains met then m else assocSet met (.str "NULL") m)
    (dataset.foldl (fun m p => assocSet p.1 p.2 m) [])

/-- The `_db_line` contents at a leaf: the dimension path followed by
the built metric dict. -/
def rowOfLeaf (path : List String) (m : Dict) : List Slot :=
  path.map Slot.val ++ [Slot.map m]

/-- The leaf rows visited by the branch loop, in traversal order, each
with the dimension path that reaches it and its built metric dict. -/
def rowsGo (cfg : SqlCfg) (path : List String) (dataset remaining : Dict) :
    List (List String × Dict) :=
  match remaining with
  | [] => []
  | (k, v) :: rest =>
      match v with
      | .dict sub => rowsGo cfg (path ++ [k]) sub sub ++ rowsGo cfg path dataset rest
      | .str _ => [(path, buildLeafMap cfg dataset)]
termination_by sizeOf remaining
decreasing_by
  · simp only [Prod.mk.sizeOf_spec, PyTree.dict.sizeOf_spec, List.cons.sizeOf_spec]
    omega
  · simp only [List.cons.sizeOf_spec]
    omega

/-- The leaf rows of a whole flush of `data`. -/
def rowsOf (cfg : SqlCfg) (data : Dict) : List (List String × Dict) :=
  rowsGo cfg [] data data

/-- One existence-check step on an explicit row: `_select` together
with its dispatch, expressed without the `_db_line` bookkeeping. -/
def rowStep (cfg : SqlCfg) (fault : Nat → Bool) (st : SqlSt)
    (row : List String × Dict) : SqlSt :=
  selectLine cfg fault { st with db_line := rowOfLeaf row.1 row.2 }

/-- Keys of an association list are pairwise distinct (Python dicts
cannot hold duplicate keys). -/
def nodupKeysB {α : Type} : List (String × α) → Bool
  | [] => true
  | p :: rest => !((rest.map Prod.fst).contains p.1) && nodupKeysB rest

/-- One leaf entry is well formed: a scalar value under a declared
metric name. -/
def leafEntryOK (cfg : SqlCfg) (p : String × PyTree) : Bool :=
  (match p.2 with | .str _ => true | .dict _ => false) && cfg.metric_list.contains p.1

-- A RecordTree of the spec (section 3): nesting depth matches the
-- dimension count exactly and leaves map declared metric names to
-- scalar values, with no duplicate keys anywhere.
mutual

def wfL (cfg : SqlCfg) : Nat → Dict → Bool
  | 0, m => nodupKeysB m && m.all (leafEntryOK cfg)
  | k + 1, m => nodupKeysB m && childrenWF cfg k m

def childrenWF (cfg : SqlCfg) (k : Nat) : Dict → Bool
  | [] => true
  | (_, .str _) :: _ => false
  | (_, .dict sub) :: rest => wfL cfg k sub && childrenWF cfg k rest

end

-- No dimension value below the first level is the string "NULL" (the
-- only level where `_select` never applies the unquoted-NULL case is
-- the first).
mutual

def noNullL : Nat → Bool → Dict → Bool
  | 0, _, _ => true
  | k + 1, top, m => noNullEntries k top m

def noNullEntries (k : Nat) (top : Bool) : Dict → Bool
  | [] => true
  | (key, v) :: rest =>
      (top || !(key == "NULL")) &&
      (match v with
       | .str _ => true
       | .dict sub => noNullL k false sub) &&
      noNullEntries k top rest

end

/-- Whether the branch loop would reach at least one leaf (a dict with
a non-dict first value somewhere along the descent). -/
def hasLeafD : Dict → Bool
  | [] => false
  | (_, .str _) :: _ => true
  | (_, .dict sub) :: rest => hasLeafD sub || hasLeafD rest
termination_by l => sizeOf l
decreasing_by
  · simp only [Prod.mk.sizeOf_spec, PyTree.dict.sizeOf_spec, List.cons.sizeOf_spec]
    omega
  · simp only [List.cons.sizeOf_spec]
    omega

/-- The insert statements contained in an operation trace, flattened to
their value tuples in emission order. -/
def insertedTuples (ops : List DbOp) : List (List SqlVal) :=
  (ops.filterMap (fun op =>
    match op with
    | .insertRows _ rs => some rs
    | _ => none)).flatten

/-- The effect of one leaf's existence check on one store row, relative
to the store `S` seen at the start of the traversal: when `S` holds a
match for the leaf's SELECT predicate, rows matching the UPDATE
predicate receive the SET pairs; otherwise nothing is written. -/
def rowEffect (cfg : SqlCfg) (S : Store) (row : List String × Dict)
    (r : StoreRow) : StoreRow :=
  if 1 ≤ (S.filter (rowMatches (selectPred cfg (rowOfLeaf row.1 row.2)))).length then
    if rowMatches (updatePred cfg (rowOfLeaf row.1 row.2)) r then
      applySets (row.2.map (fun p => (p.1, metricVal p.2))) r
    else r
  else r

/-- The accumulated effect of a list of leaf rows on one store row. -/
def applyRows (cfg : SqlCfg) (S : Store) (rows : List (List String × Dict))
    (r : StoreRow) : StoreRow :=
  rows.foldl (fun r row => rowEffect cfg S row r) r

/-- The operations issued for one leaf row during traversal. -/
def opsOfRow (cfg : SqlCfg) (S : Store) (row : List String × Dict) : List DbOp :=
  DbOp.select (selectPred cfg (rowOfLeaf row.1 row.2)) ::
    (if 1 ≤ (S.filter (rowMatches (selectPred cfg (rowOfLeaf row.1 row.2)))).length then
      [DbOp.update (row.2.map (fun p => (p.1, metricVal p.2)))
        (updatePred cfg (rowOfLeaf row.1 row.2))]
    else [])

/-- A leaf row whose SELECT predicate matches nothing in `S`. -/
def noMatchIn (cfg : SqlCfg) (S : Store) (row : List String × Dict) : Bool :=
  (S.filter (rowMatches (selectPred cfg (rowOfLeaf row.1 row.2)))).length = 0

/-- The value tuple the bulk insert emits for a well-formed leaf row:
the quoted dimension path followed by each declared metric, the marker
`"NULL"` rendered as a genuine null. -/
def renderLeafVals (cfg : SqlCfg) (path : List String) (fm : Dict) : List SqlVal :=
  match path with
  | [] => []
  | p0 :: ps =>
      some p0 :: (ps.map some ++
        cfg.metric_list.map (fun k => metricVal ((fm.lookup k).getD (.str "NULL"))))

/-- The shape the branch loop relies on at each level: at depth 0 the
whole dataset is a well-formed leaf dict and the remaining entries come
from it; above, every remaining entry holds a dict that is well formed
one level lower. -/
def remWF (cfg : SqlCfg) : Nat → Dict → Dict → Prop
  | 0, dataset, remaining =>
      wfL cfg 0 dataset = true ∧ ∀ p ∈ remaining, p ∈ dataset
  | k + 1, _, remaining =>
      ∀ p ∈ remaining, ∃ sub, p.2 = PyTree.dict sub ∧ wfL cfg k sub = true

/-- Two flush states that agree on everything except the scratch
`_db_line`. -/
def sameCore (X Y : SqlSt) : Prop :=
  X.insert_list = Y.insert_list ∧ X.store = Y.store ∧ X.ops = Y.ops ∧
  X.nsel = Y.nsel ∧ X.errored = Y.errored ∧ X.connOpen = Y.connOpen

/-! ### Association-list lemmas -/

theorem lookup_cons_eval {α : Type} (k a : String) (b : α) (rest : List (String × α)) :
    ((a, b) :: rest).lookup k = if k = a then some b else rest.lookup k := by
  by_cases h : k = a
  · simp [List.lookup, h]
  · have hb : (k == a) = false := by simpa using h
    simp [List.lookup, hb, h]

theorem assocSet_lookup_self {α : Type} (k : String) (v : α) (m : List (String × α)) :
    (assocSet k v m).lookup k = some v := by
  induction m with
  | nil => simp [assocSet, lookup_cons_eval]
  | cons p rest ih =>
      rcases p with ⟨a, b⟩
      by_cases ha : a = k
      · simp [assocSet, ha, lookup_cons_eval]
      · have hk : k ≠ a := fun hc => ha hc.symm
        simp [assocSet, ha, lookup_cons_eval, hk, ih]

theorem assocSet_lookup_ne {α : Type} (k k' : String) (v : α) (m : List (String × α))
    (h : k' ≠ k) : (assocSet k v m).lookup k' = m.lookup k' := by
  induction m with
  | nil => rw [show assocSet k v [] = [(k, v)] from rfl, lookup_cons_eval, if_neg h]
  | cons p rest ih =>
      rcases p with ⟨a, b⟩
      by_cases ha : a = k
      · subst ha
        simp [assocSet, lookup_cons_eval, h]
      · simp [assocSet, ha, lookup_cons_eval, ih]

theorem lookup_eq_none_iff {α : Type} (m : List (String × α)) (k : String) :
    m.lookup k = none ↔ k ∉ m.map Prod.fst := by
  induction m with
  | nil => simp [List.lookup]
  | cons p rest ih =>
      rcases p with ⟨a, b⟩
      by_cases h : k = a
      · simp [lookup_cons_eval, h]
      · simp [lookup_cons_eval, h, ih]

theorem assocSet_map_fst_mem {α : Type} (k : String) (v : α) (m : List (String × α))
    (h : k ∈ m.map Prod.fst) : (assocSet k v m).map Prod.fst = m.map Prod.fst := by
  induction m with
  | nil => simp at h
  | cons p rest ih =>
      rcases p with ⟨a, b⟩
      by_cases ha : a = k
      · simp [assocSet, ha]
      · have hmem : k ∈ rest.map Prod.fst := by
          simp only [List.map_cons, List.mem_cons] at h
          rcases h with h1 | h1
          · exact absurd h1.symm ha
          · exact h1
        simp [assocSet, ha, ih hmem]

theorem assocSet_map_fst_not_mem {α : Type} (k : String) (v : α) (m : List (String × α))
    (h : k ∉ m.map Prod.fst) : (assocSet k v m).map Prod.fst = m.map Prod.fst ++ [k] := by
  induction m with
  | nil => simp [assocSet]
  | cons p rest ih =>
      rcases p with ⟨a, b⟩
      have ha : a ≠ k := by
        intro hc
        exact h (by simp [hc])
      have hrest : k ∉ rest.map Prod.fst := fun hc => h (by simp [hc])
      simp [assocSet, ha, ih hrest]

theorem assocSet_mem_keys {α : Type} (k x : String) (v : α) (m : List (String × α))
    (h : x ∈ (assocSet k v m).map Prod.fst) : x ∈ m.map Prod.fst ∨ x = k := by
  by_cases hk : k ∈ m.map Prod.fst
  · rw [assocSet_map_fst_mem k v m hk] at h
    exact Or.inl h
  · rw [assocSet_map_fst_not_mem k v m hk] at h
    simpa using h

theorem assocSet_assocSet_same {α : Type} (k : String) (v v' : α) (m : List (String × α)) :
    assocSet k v' (assocSet k v m) = assocSet k v' m := by
  induction m with
  | nil => simp [assocSet]
  | cons p rest ih =>
      rcases p with ⟨a, b⟩
      by_cases ha : a = k
      · simp [assocSet, ha]
      · simp [assocSet, ha, ih]

theorem assocSet_append_self {α : Type} (k : String) (v w : α) (m : List (String × α))
    (h : k ∉ m.map Prod.fst) : assocSet k v (m ++ [(k, w)]) = m ++ [(k, v)] := by
  induction m with
  | nil => simp [assocSet]
  | cons p rest ih =>
      rcases p with ⟨a, b⟩
      have ha : a ≠ k := by
        intro hc
        exact h (by simp [hc])
      have hrest : k ∉ rest.map Prod.fst := fun hc => h (by simp [hc])
      simp [assocSet, ha, ih hrest]

theorem assocSet_of_lookup {α : Type} (k : String) (v : α) (m : List (String × α))
    (h : m.lookup k = some v) : assocSet k v m = m := by
  induction m with
  | nil => simp [List.lookup] at h
  | cons p rest ih =>
      rcases p with ⟨a, b⟩
      by_cases ha : k = a
      · rw [lookup_cons_eval, if_pos ha] at h
        cases h
        simp [assocSet, ha.symm]
      · rw [lookup_cons_eval, if_neg ha] at h
        have ha' : a ≠ k := fun hc => ha hc.symm
        simp [assocSet, ha', ih h]

theorem lookup_append_of_none {α : Type} (k : String) (m1 m2 : List (String × α))
    (h : m1.lookup k = none) : (m1 ++ m2).lookup k = m2.lookup k := by
  induction m1 with
  | nil => simp
  | cons p rest ih =>
      rcases p with ⟨a, b⟩
      by_cases ha : k = a
      · rw [lookup_cons_eval, if_pos ha] at h
        cases h
      · rw [lookup_cons_eval, if_neg ha] at h
        rw [List.cons_append, lookup_cons_eval, if_neg ha]
        exact ih h

/-! ### Lemmas about UPDATE application -/

theorem applySets_lookup_not_mem (sets : List (String × SqlVal)) (r : StoreRow)
    (f : String) (h : f ∉ sets.map Prod.fst) :
    (applySets sets r).lookup f = r.lookup f := by
  induction sets generalizing r with
  | nil => simp [applySets]
  | cons p rest ih =>
      have hp : f ≠ p.1 := by
        intro hc
        exact h (by simp [hc])
      have hrest : f ∉ rest.map Prod.fst := fun hc => h (by simp [hc])
      simpa [applySets, List.foldl_cons] using
        (ih (assocSet p.1 p.2 r) hrest).trans (assocSet_lookup_ne p.1 f p.2 r hp)

theorem applySets_of_lookup (sets : List (String × SqlVal)) (r : StoreRow)
    (h : ∀ p ∈ sets, r.lookup p.1 = some p.2) : applySets sets r = r := by
  induction sets with
  | nil => simp [applySets]
  | cons p rest ih =>
      have h1 : assocSet p.1 p.2 r = r := assocSet_of_lookup _ _ _ (h p (by simp))
      have h2 : applySets rest r = r := by
        apply ih
        intro q hq
        exact h q (by simp [hq])
      simpa [applySets, List.foldl_cons, h1] using h2

theorem applySets_lookup_self (sets : List (String × SqlVal)) (r : StoreRow)
    (p : String × SqlVal) (hnd : (sets.map Prod.fst).Nodup) (hp : p ∈ sets) :
    (applySets sets r).lookup p.1 = some p.2 := by
  induction sets generalizing r with
  | nil => simp at hp
  | cons q rest ih =>
      have hnd' : (rest.map Prod.fst).Nodup := by
        rw [List.map_cons] at hnd
        exact hnd.of_cons
      rcases (by simpa using hp) with h1 | h1
      · subst h1
        have hq : p.1 ∉ rest.map Prod.fst := by
          rw [List.map_cons] at hnd
          exact (List.nodup_cons.mp hnd).1
        calc (applySets (p :: rest) r).lookup p.1
            = (assocSet p.1 p.2 r).lookup p.1 := by
              simpa [applySets, List.foldl_cons] using
                applySets_lookup_not_mem rest (assocSet p.1 p.2 r) p.1 hq
          _ = some p.2 := assocSet_lookup_self _ _ _
      · simpa [applySets, List.foldl_cons] using ih (assocSet q.1 q.2 r) hnd' h1

theorem applySets_idem (sets : List (String × SqlVal)) (r : StoreRow)
    (hnd : (sets.map Prod.fst).Nodup) :
    applySets sets (applySets sets r) = applySets sets r := by
  apply applySets_of_lookup
  intro p hp
  exact applySets_lookup_self sets r p hnd hp

theorem rowMatches_congr (pred : List (String × SqlVal)) (r r' : StoreRow)
    (h : ∀ p ∈ pred, r'.lookup p.1 = r.lookup p.1) :
    rowMatches pred r' = rowMatches pred r := by
  unfold rowMatches
  induction pred with
  | nil => simp
  | cons p rest ih =>
      simp only [List.all_cons]
      rw [h p (by simp), ih (fun q hq => h q (by simp [hq]))]

/-! ### The SELECT predicate covers the dimensions -/

theorem map_fst_zipWith_pair {β : Type} (g : Slot → β) (ds : List String) (ss : List Slot)
    (h : ds.length ≤ ss.length) :
    (List.zipWith (fun dn sl => (dn, g sl)) ds ss).map Prod.fst = ds := by
  induction ds generalizing ss with
  | nil => simp
  | cons d ds ih =>
      cases ss with
      | nil => simp at h
      | cons s ss => simpa using ih ss (by simpa using h)

theorem selectPred_map_fst (cfg : SqlCfg) (line : List Slot)
    (h : cfg.dimension_list.length ≤ line.length) :
    (selectPred cfg line).map Prod.fst = cfg.dimension_list := by
  obtain ⟨tb, dl, ml⟩ := cfg
  cases dl with
  | nil => cases line <;> simp [selectPred]
  | cons d0 ds =>
      cases line with
      | nil => simp at h
      | cons s0 ss =>
          simp only [selectPred, List.map_cons, List.cons.injEq, true_and]
          exact map_fst_zipWith_pair predVal ds ss (by simpa using h)

theorem lookup_some_mem {α : Type} {m : List (String × α)} {k : String} {v : α}
    (h : m.lookup k = some v) : k ∈ m.map Prod.fst := by
  by_contra hc
  rw [(lookup_eq_none_iff m k).mpr hc] at h
  cases h

/-! ### C1: existence check and insert/update dispatch -/

/-- **C1**: for a Row produced during flush, `_select` issues an
equality predicate naming every dimension field; with one or more store
matches it issues an UPDATE whose SET pairs name every metric field and
does not buffer the row, and with zero matches it only buffers the row
and issues no write. -/
theorem select_existence_dispatch (cfg : SqlCfg) (fault : Nat → Bool) (st : SqlSt)
    (fm : Dict)
    (hf : fault st.nsel = false)
    (hlen : cfg.dimension_list.length ≤ st.db_line.length)
    (hlast : st.db_line.getLast? = some (.map fm))
    (hcov : ∀ met ∈ cfg.metric_list, met ∈ fm.map Prod.fst) :
    (selectPred cfg st.db_line).map Prod.fst = cfg.dimension_list ∧
    (if 1 ≤ (st.store.filter (rowMatches (selectPred cfg st.db_line))).length then
      (selectLine cfg fault st).ops =
          st.ops ++ [DbOp.select (selectPred cfg st.db_line),
            DbOp.update (fm.map (fun p => (p.1, metricVal p.2)))
              (updatePred cfg st.db_line)] ∧
        (∀ met ∈ cfg.metric_list,
          met ∈ (fm.map (fun p => (p.1, metricVal p.2))).map Prod.fst) ∧
        (selectLine cfg fault st).insert_list = st.insert_list
    else
      (selectLine cfg fault st).ops = st.ops ++ [DbOp.select (selectPred cfg st.db_line)] ∧
        (selectLine cfg fault st).insert_list = st.insert_list ++ [st.db_line] ∧
        (selectLine cfg fault st).store = st.store) := by
  refine ⟨selectPred_map_fst cfg st.db_line hlen, ?_⟩
  by_cases hc : 1 ≤ (st.store.filter (rowMatches (selectPred cfg st.db_line))).length
  · rw [if_pos hc]
    simp only [selectLine, hf, Bool.false_eq_true, if_false]
    rw [if_pos hc]
    simp only [updateRow, hlast]
    refine ⟨by simp, ?_, by trivial⟩
    intro met hmet
    have hkeys : (fm.map (fun p => (p.1, metricVal p.2))).map Prod.fst
        = fm.map Prod.fst := by simp
    rw [hkeys]
    exact hcov met hmet
  · rw [if_neg hc]
    simp only [selectLine, hf, Bool.false_eq_true, if_false]
    rw [if_neg hc]
    simp

/-! ### C9: updates write only metric fields -/

/-- **C9**: an UPDATE dispatched for a Row names only metric fields in
its SET pairs (dimensions appear only in the WHERE predicate), and the
dimension fields of every store row are unchanged by its execution. -/
theorem update_touches_only_metrics (cfg : SqlCfg) (st : SqlSt) (fm : Dict)
    (hlast : st.db_line.getLast? = some (.map fm))
    (hsub : ∀ k ∈ fm.map Prod.fst, k ∈ cfg.metric_list)
    (hdisj : ∀ f ∈ cfg.dimension_list, f ∉ cfg.metric_list) :
    (updateRow cfg st).ops =
        st.ops ++ [DbOp.update (fm.map (fun p => (p.1, metricVal p.2)))
          (updatePred cfg st.db_line)] ∧
    (∀ p ∈ fm.map (fun p => (p.1, metricVal p.2)), p.1 ∉ cfg.dimension_list) ∧
    (updateRow cfg st).store.length = st.store.length ∧
    (∀ f ∈ cfg.dimension_list,
      (updateRow cfg st).store.map (fun r => r.lookup f) =
        st.store.map (fun r => r.lookup f)) := by
  have hkeys : (fm.map (fun p => (p.1, metricVal p.2))).map Prod.fst = fm.map Prod.fst := by
    simp
  refine ⟨by simp [updateRow, hlast], ?_, by simp [updateRow], ?_⟩
  · intro p hp
    intro hdim
    have h1 : p.1 ∈ fm.map Prod.fst := by
      rw [← hkeys]
      exact List.mem_map_of_mem Prod.fst hp
    exact hdisj p.1 hdim (hsub p.1 h1)
  · intro f hf
    simp only [updateRow, hlast, List.map_map]
    apply List.map_congr_left
    intro r _
    by_cases hm : rowMatches (updatePred cfg st.db_line) r
    · simp only [Function.comp_apply, hm, if_pos]
      apply applySets_lookup_not_mem
      rw [hkeys]
      intro hc
      exact hdisj f hf (hsub f hc)
    · simp [Function.comp_apply, hm]

/-! ### C4: the null marker -/

theorem foldl_assocSet_keys {α : Type} (l : List (String × α)) (init : List (String × α))
    (x : String)
    (h : x ∈ (l.foldl (fun m p => assocSet p.1 p.2 m) init).map Prod.fst) :
    x ∈ init.map Prod.fst ∨ x ∈ l.map Prod.fst := by
  induction l generalizing init with
  | nil => exact Or.inl (by simpa using h)
  | cons p rest ih =>
      rcases ih (assocSet p.1 p.2 init) (by simpa using h) with h1 | h1
      · rcases assocSet_mem_keys p.1 x p.2 init h1 with h2 | h2
        · exact Or.inl h2
        · exact Or.inr (by simp [h2])
      · exact Or.inr (by simp [h1])

theorem nullFold_not_mem (mets : List String) (acc : Dict) (x : String)
    (hx : x ∉ acc.map Prod.fst) (hnx : x ∉ mets) :
    x ∉ ((mets.foldl (fun m met =>
      if (m.map Prod.fst).contains met then m
      else assocSet met (.str "NULL") m) acc).map Prod.fst) := by
  induction mets generalizing acc with
  | nil => simpa using hx
  | cons met rest ih =>
      have hne : x ≠ met := by
        intro hc
        exact hnx (by simp [hc])
      have hrest : x ∉ rest := fun hc => hnx (by simp [hc])
      simp only [List.foldl_cons]
      by_cases hcont : ((acc.map Prod.fst).contains met : Bool)
      · rw [if_pos hcont]
        exact ih acc hx hrest
      · rw [if_neg hcont]
        apply ih _ _ hrest
        intro hc
        rcases assocSet_mem_keys met x (PyTree.str "NULL") acc hc with h2 | h2
        · exact hx h2
        · exact hne h2

theorem nullFold_lookup_preserved (mets : List String) (acc : Dict) (x : String)
    (hnx : x ∉ mets) :
    ((mets.foldl (fun m met =>
      if (m.map Prod.fst).contains met then m
      else assocSet met (.str "NULL") m) acc).lookup x) = acc.lookup x := by
  induction mets generalizing acc with
  | nil => rfl
  | cons met rest ih =>
      have hne : x ≠ met := by
        intro hc
        exact hnx (by simp [hc])
      have hrest : x ∉ rest := fun hc => hnx (by simp [hc])
      simp only [List.foldl_cons]
      by_cases hcont : ((acc.map Prod.fst).contains met : Bool)
      · rw [if_pos hcont]
        exact ih acc hrest
      · rw [if_neg hcont]
        rw [ih _ hrest]
        exact assocSet_lookup_ne met x (PyTree.str "NULL") acc hne

/-- **C4**: a leaf missing a declared metric produces a Row whose dict
holds the explicit marker `"NULL"` under that metric — distinguishable
from `"0"` and from the empty string — and at write time the marker is
rendered as a genuine SQL null (`none`), not as the quoted string
`"NULL"`. -/
theorem missing_metric_null_marker (cfg : SqlCfg) (dataset : Dict) (met : String)
    (hm : met ∈ cfg.metric_list)
    (hnd : cfg.metric_list.Nodup)
    (habs : met ∉ dataset.map Prod.fst) :
    (buildLeafMap cfg dataset).lookup met = some (.str "NULL") ∧
    PyTree.str "NULL" ≠ PyTree.str "0" ∧
    PyTree.str "NULL" ≠ PyTree.str "" ∧
    metricVal (.str "NULL") = none ∧
    metricVal (.str "NULL") ≠ some "NULL" := by
  refine ⟨?_, by decide, by decide, by simp [metricVal], by simp [metricVal]⟩
  obtain ⟨pre, post, hsplit⟩ := List.append_of_mem hm
  have hnd' := hnd
  rw [hsplit] at hnd'
  rw [List.nodup_append] at hnd'
  have hpre : met ∉ pre := by
    intro hc
    exact hnd'.2.2 hc (by simp)
  have hpost : met ∉ post := by
    have := hnd'.2.1
    rw [List.nodup_cons] at this
    exact this.1
  unfold buildLeafMap
  rw [hsplit, List.foldl_append, List.foldl_cons]
  set acc1 : Dict := pre.foldl (fun m met =>
    if (m.map Prod.fst).contains met then m
    else assocSet met (.str "NULL") m)
    (dataset.foldl (fun m p => assocSet p.1 p.2 m) []) with hacc1
  have hnotmem : met ∉ acc1.map Prod.fst := by
    rw [hacc1]
    apply nullFold_not_mem _ _ _ _ hpre
    intro hc
    rcases foldl_assocSet_keys dataset [] met hc with h1 | h1
    · simp at h1
    · exact habs h1
  have hcont : ((acc1.map Prod.fst).contains met : Bool) = false := by
    simpa using hnotmem
  rw [hcont]
  simp only [Bool.false_eq_true, if_false]
  rw [nullFold_lookup_preserved post _ met hpost]
  exact assocSet_lookup_self met (PyTree.str "NULL") acc1

/-! ### C5: merges coalesce at one leaf per path -/

theorem bls_merge_eq_fed (m : Dict) (d c v : String) :
    bls_merge m d c v = fed_merge m d c v := by
  unfold bls_merge fed_merge
  cases h : m.lookup d with
  | none => rfl
  | some t => cases t <;> rfl

theorem fed_merge_of_lookup_none (data : Dict) (d c v : String)
    (h : data.lookup d = none) :
    fed_merge data d c v = data ++ [(d, PyTree.dict [(c, PyTree.str v)])] := by
  unfold fed_merge
  rw [h]

theorem fed_merge_of_lookup_dict (data : Dict) (d c v : String) (m0 : Dict)
    (h : data.lookup d = some (PyTree.dict m0)) :
    fed_merge data d c v = assocSet d (PyTree.dict (assocSet c (PyTree.str v) m0)) data := by
  unfold fed_merge
  rw [h]

theorem innerLookup_of_lookup (data : Dict) (d met : String) (m : Dict)
    (h : data.lookup d = some (PyTree.dict m)) :
    innerLookup data d met = m.lookup met := by
  unfold innerLookup
  rw [h]

theorem innerLookup_of_none (data : Dict) (d met : String)
    (h : data.lookup d = none) : innerLookup data d met = none := by
  unfold innerLookup
  rw [h]

theorem merge_step_coalesces (data : Dict) (d cA cB vA vB : String)
    (hnd : (data.map Prod.fst).Nodup)
    (hleaf : ∀ t, data.lookup d = some t → ∃ m0, t = PyTree.dict m0)
    (hAB : cA ≠ cB) :
    ((fed_merge (fed_merge data d cA vA) d cB vB).map Prod.fst).count d = 1 ∧
    innerLookup (fed_merge (fed_merge data d cA vA) d cB vB) d cA = some (.str vA) ∧
    innerLookup (fed_merge (fed_merge data d cA vA) d cB vB) d cB = some (.str vB) ∧
    (∀ c, c ≠ cA → c ≠ cB →
      innerLookup (fed_merge (fed_merge data d cA vA) d cB vB) d c =
        innerLookup data d c) := by
  have hBA : cB ≠ cA := fun hc => hAB hc.symm
  cases h : data.lookup d with
  | none =>
      have hdmem : d ∉ data.map Prod.fst := (lookup_eq_none_iff data d).mp h
      have hlk1 : (data ++ [(d, PyTree.dict [(cA, PyTree.str vA)])]).lookup d
          = some (PyTree.dict [(cA, PyTree.str vA)]) := by
        rw [lookup_append_of_none d data _ h, lookup_cons_eval, if_pos rfl]
      have hm2 : assocSet cB (PyTree.str vB) [(cA, PyTree.str vA)]
          = [(cA, PyTree.str vA), (cB, PyTree.str vB)] := by
        have : cA ≠ cB := hAB
        simp [assocSet, this]
      have h2 : fed_merge (fed_merge data d cA vA) d cB vB
          = data ++ [(d, PyTree.dict [(cA, PyTree.str vA), (cB, PyTree.str vB)])] := by
        rw [fed_merge_of_lookup_none data d cA vA h,
          fed_merge_of_lookup_dict _ d cB vB _ hlk1, hm2,
          assocSet_append_self d _ _ data hdmem]
      have hlk2 : (data ++ [(d, PyTree.dict
            [(cA, PyTree.str vA), (cB, PyTree.str vB)])]).lookup d
          = some (PyTree.dict [(cA, PyTree.str vA), (cB, PyTree.str vB)]) := by
        rw [lookup_append_of_none d data _ h, lookup_cons_eval, if_pos rfl]
      refine ⟨?_, ?_, ?_, ?_⟩
      · rw [h2]
        simp only [List.map_append, List.map_cons, List.map_nil, List.count_append]
        rw [List.count_eq_zero.mpr hdmem]
        simp
      · rw [h2, innerLookup_of_lookup _ d cA _ hlk2, lookup_cons_eval, if_pos rfl]
      · rw [h2, innerLookup_of_lookup _ d cB _ hlk2, lookup_cons_eval, if_neg hBA,
          lookup_cons_eval, if_pos rfl]
      · intro c hcA hcB
        rw [h2, innerLookup_of_lookup _ d c _ hlk2, lookup_cons_eval, if_neg hcA,
          lookup_cons_eval, if_neg hcB, innerLookup_of_none data d c h]
        rfl
  | some t =>
      obtain ⟨m0, rfl⟩ := hleaf t h
      have hdmem : d ∈ data.map Prod.fst := lookup_some_mem h
      have hlk1 : (assocSet d (PyTree.dict (assocSet cA (PyTree.str vA) m0)) data).lookup d
          = some (PyTree.dict (assocSet cA (PyTree.str vA) m0)) := assocSet_lookup_self _ _ _
      have h2 : fed_merge (fed_merge data d cA vA) d cB vB
          = assocSet d (PyTree.dict
              (assocSet cB (PyTree.str vB) (assocSet cA (PyTree.str vA) m0))) data := by
        rw [fed_merge_of_lookup_dict data d cA vA m0 h,
          fed_merge_of_lookup_dict _ d cB vB _ hlk1, assocSet_assocSet_same]
      have hlk2 : (assocSet d (PyTree.dict
            (assocSet cB (PyTree.str vB) (assocSet cA (PyTree.str vA) m0))) data).lookup d
          = some (PyTree.dict
              (assocSet cB (PyTree.str vB) (assocSet cA (PyTree.str vA) m0))) :=
        assocSet_lookup_self _ _ _
      refine ⟨?_, ?_, ?_, ?_⟩
      · rw [h2, assocSet_map_fst_mem d _ data hdmem]
        exact List.count_eq_one_of_mem hnd hdmem
      · rw [h2, innerLookup_of_lookup _ d cA _ hlk2,
          assocSet_lookup_ne cB cA _ _ hAB]
        exact assocSet_lookup_self _ _ _
      · rw [h2, innerLookup_of_lookup _ d cB _ hlk2]
        exact assocSet_lookup_self _ _ _
      · intro c hcA hcB
        rw [h2, innerLookup_of_lookup _ d c _ hlk2,
          assocSet_lookup_ne cB c _ _ hcB, assocSet_lookup_ne cA c _ _ hcA,
          innerLookup_of_lookup data d c m0 h]

/-- **C5**: both record-source parsers coalesce merges: adding metric A
and then metric B at the same dimension path leaves exactly one leaf for
the path, holding both values, with unrelated metrics preserved — never
a duplicate leaf.  Stated for the date-path merge of `FedData._fed_parse`
and the date-level merge of `BLSData._bls_parse_data`. -/
theorem merges_coalesce_one_leaf
    (fdata : Dict) (fd fA fB fvA fvB : String)
    (hfnd : (fdata.map Prod.fst).Nodup)
    (hfleaf : ∀ t, fdata.lookup fd = some t → ∃ m0, t = PyTree.dict m0)
    (hfAB : fA ≠ fB)
    (bdata : Dict) (bd bA bB bvA bvB : String)
    (hbnd : (bdata.map Prod.fst).Nodup)
    (hbleaf : ∀ t, bdata.lookup bd = some t → ∃ m0, t = PyTree.dict m0)
    (hbAB : bA ≠ bB) :
    (((fed_merge (fed_merge fdata fd fA fvA) fd fB fvB).map Prod.fst).count fd = 1 ∧
      innerLookup (fed_merge (fed_merge fdata fd fA fvA) fd fB fvB) fd fA
        = some (.str fvA) ∧
      innerLookup (fed_merge (fed_merge fdata fd fA fvA) fd fB fvB) fd fB
        = some (.str fvB) ∧
      (∀ c, c ≠ fA → c ≠ fB →
        innerLookup (fed_merge (fed_merge fdata fd fA fvA) fd fB fvB) fd c
          = innerLookup fdata fd c)) ∧
    (((bls_merge (bls_merge bdata bd bA bvA) bd bB bvB).map Prod.fst).count bd = 1 ∧
      innerLookup (bls_merge (bls_merge bdata bd bA bvA) bd bB bvB) bd bA
        = some (.str bvA) ∧
      innerLookup (bls_merge (bls_merge bdata bd bA bvA) bd bB bvB) bd bB
        = some (.str bvB) ∧
      (∀ c, c ≠ bA → c ≠ bB →
        innerLookup (bls_merge (bls_merge bdata bd bA bvA) bd bB bvB) bd c
          = innerLookup bdata bd c)) := by
  constructor
  · exact merge_step_coalesces fdata fd fA fB fvA fvB hfnd hfleaf hfAB
  · rw [bls_merge_eq_fed, bls_merge_eq_fed]
    exact merge_step_coalesces bdata bd bA bB bvA bvB hbnd hbleaf hbAB

/-! ### Connection bookkeeping and abort-on-failure lemmas -/

theorem updateRow_connOpen (cfg : SqlCfg) (st : SqlSt) :
    (updateRow cfg st).connOpen = st.connOpen := by
  simp [updateRow]

theorem selectLine_connOpen (cfg : SqlCfg) (fault : Nat → Bool) (st : SqlSt) :
    (selectLine cfg fault st).connOpen = st.connOpen := by
  unfold selectLine
  by_cases hf : fault st.nsel = true
  · simp [hf]
  · simp only [hf, Bool.false_eq_true, if_false]
    split
    · rw [updateRow_connOpen]
    · rfl

theorem leafSelect_connOpen (cfg : SqlCfg) (fault : Nat → Bool) (dataset : Dict)
    (rowIndex : Nat) (st : SqlSt) :
    (leafSelect cfg fault dataset rowIndex st).connOpen = st.connOpen := by
  unfold leafSelect
  rw [selectLine_connOpen]

theorem insChunks_connOpen (cfg : SqlCfg) (chunks : List (List (List Slot))) (st : SqlSt) :
    (insChunks cfg chunks st).connOpen = st.connOpen := by
  induction chunks generalizing st with
  | nil => rfl
  | cons c rest ih =>
      unfold insChunks
      cases renderRows cfg c with
      | none => rfl
      | some rows =>
          simp only []
          split
          · rw [ih]
          · rfl

theorem insertBulk_connOpen (cfg : SqlCfg) (st : SqlSt) :
    (insertBulk cfg st).connOpen = st.connOpen := by
  unfold insertBulk
  by_cases h : 65535 / (cfg.dimension_list.length + cfg.metric_list.length) = 0
  · simp [h]
  · simp only [h, if_false]
    rw [insChunks_connOpen]

theorem recList_of_errored (cfg : SqlCfg) (fault : Nat → Bool) (dataset remaining : Dict)
    (rowIndex : Nat) (st : SqlSt) (h : st.errored = true) :
    recList cfg fault dataset remaining rowIndex st = st := by
  rw [recList.eq_def, if_pos h]

theorem recList_nil (cfg : SqlCfg) (fault : Nat → Bool) (dataset : Dict)
    (rowIndex : Nat) (st : SqlSt) (h : st.errored = false) :
    recList cfg fault dataset [] rowIndex st = st := by
  rw [recList.eq_def, if_neg (by simp [h])]

theorem recList_cons_dict (cfg : SqlCfg) (fault : Nat → Bool) (dataset : Dict)
    (k : String) (sub rest : Dict) (rowIndex : Nat) (st : SqlSt)
    (h : st.errored = false) :
    recList cfg fault dataset ((k, PyTree.dict sub) :: rest) rowIndex st =
      recList cfg fault dataset rest rowIndex
        (recList cfg fault sub sub (rowIndex + 1)
          { st with db_line := modify_db_line (Slot.val k) rowIndex st.db_line }) := by
  conv_lhs => rw [recList.eq_def]
  rw [if_neg (by simp [h])]

theorem recList_cons_str (cfg : SqlCfg) (fault : Nat → Bool) (dataset : Dict)
    (k s0 : String) (rest : Dict) (rowIndex : Nat) (st : SqlSt)
    (h : st.errored = false) :
    recList cfg fault dataset ((k, PyTree.str s0) :: rest) rowIndex st =
      leafSelect cfg fault dataset rowIndex st := by
  conv_lhs => rw [recList.eq_def]
  rw [if_neg (by simp [h])]

theorem recList_connOpen (cfg : SqlCfg) (fault : Nat → Bool) (dataset remaining : Dict)
    (rowIndex : Nat) (st : SqlSt) :
    (recList cfg fault dataset remaining rowIndex st).connOpen = st.connOpen := by
  induction remaining using hasLeafD.induct generalizing dataset rowIndex st with
  | case1 =>
      by_cases herr : st.errored = true
      · rw [recList_of_errored _ _ _ _ _ _ herr]
      · rw [recList_nil _ _ _ _ _ (by simpa using herr)]
  | case2 k s rest =>
      by_cases herr : st.errored = true
      · rw [recList_of_errored _ _ _ _ _ _ herr]
      · rw [recList_cons_str _ _ _ _ _ _ _ _ (by simpa using herr), leafSelect_connOpen]
  | case3 k sub rest ih1 ih2 =>
      by_cases herr : st.errored = true
      · rw [recList_of_errored _ _ _ _ _ _ herr]
      · rw [recList_cons_dict _ _ _ _ _ _ _ _ (by simpa using herr), ih2, ih1]

theorem recList_no_leaf (cfg : SqlCfg) (fault : Nat → Bool) (dataset remaining : Dict)
    (rowIndex : Nat) (st : SqlSt) (h : hasLeafD remaining = false) :
    ∃ dbl, recList cfg fault dataset remaining rowIndex st = { st with db_line := dbl } := by
  induction remaining using hasLeafD.induct generalizing dataset rowIndex st with
  | case1 =>
      by_cases herr : st.errored = true
      · exact ⟨st.db_line, by rw [recList_of_errored _ _ _ _ _ _ herr]⟩
      · exact ⟨st.db_line, by rw [recList_nil _ _ _ _ _ (by simpa using herr)]⟩
  | case2 k s rest =>
      exact Bool.noConfusion (hasLeafD.eq_2 k s rest ▸ h)
  | case3 k sub rest ih1 ih2 =>
      simp only [hasLeafD, Bool.or_eq_false_iff] at h
      by_cases herr : st.errored = true
      · exact ⟨st.db_line, by rw [recList_of_errored _ _ _ _ _ _ herr]⟩
      · obtain ⟨dbl1, hd1⟩ := ih1 sub (rowIndex + 1)
          { st with db_line := modify_db_line (Slot.val k) rowIndex st.db_line } h.1
        obtain ⟨dbl2, hd2⟩ := ih2 dataset rowIndex { st with db_line := dbl1 } h.2
        refine ⟨dbl2, ?_⟩
        rw [recList_cons_dict _ _ _ _ _ _ _ _ (by simpa using herr), hd1, hd2]

theorem recList_fault_first (cfg : SqlCfg) (fault : Nat → Bool) (dataset remaining : Dict)
    (rowIndex : Nat) (st : SqlSt) (hl : hasLeafD remaining = true)
    (hf : fault st.nsel = true) (herr : st.errored = false) :
    ∃ dbl, recList cfg fault dataset remaining rowIndex st
      = { st with errored := true, nsel := st.nsel + 1, db_line := dbl } := by
  induction remaining using hasLeafD.induct generalizing dataset rowIndex st with
  | case1 =>
      exact Bool.noConfusion (hasLeafD.eq_1 ▸ hl)
  | case2 k s rest =>
      refine ⟨nullFill cfg rowIndex (copyEntries dataset
        (modify_db_line (Slot.map []) rowIndex st.db_line)), ?_⟩
      rw [recList_cons_str _ _ _ _ _ _ _ _ herr]
      simp [leafSelect, selectLine, hf]
  | case3 k sub rest ih1 ih2 =>
      simp only [hasLeafD, Bool.or_eq_true] at hl
      by_cases hsub : hasLeafD sub = true
      · obtain ⟨dbl1, hd1⟩ := ih1 sub (rowIndex + 1)
          { st with db_line := modify_db_line (Slot.val k) rowIndex st.db_line } hsub hf herr
        refine ⟨dbl1, ?_⟩
        rw [recList_cons_dict _ _ _ _ _ _ _ _ herr, hd1,
          recList_of_errored _ _ _ _ _ _ (by rfl)]
      · have hrest : hasLeafD rest = true := by
          rcases hl with h1 | h1
          · exact absurd h1 hsub
          · exact h1
        obtain ⟨dbl1, hd1⟩ :=
          recList_no_leaf cfg fault sub sub (rowIndex + 1)
            { st with db_line := modify_db_line (Slot.val k) rowIndex st.db_line }
            (by simpa using hsub)
        obtain ⟨dbl2, hd2⟩ := ih2 dataset rowIndex
          { st with db_line := dbl1 } hrest hf herr
        refine ⟨dbl2, ?_⟩
        rw [recList_cons_dict _ _ _ _ _ _ _ _ herr, hd1, hd2]

/-! ### C6: connection release -/

/-- **C6 counterexample**: a flush that terminates with a fatal error
(here: the bulk insert of a depth-deficient row fails) exits with the
connection still open — the close on line 79 is not reached, refuting
the claim that the connection is released on every exit path. -/
theorem connection_left_open_on_error_cex :
    (recurse_parse ⟨"t", ["a", "b"], ["m"]⟩ noFault
        [("x", PyTree.dict [("m", PyTree.str "v")])] []).errored = true ∧
    (recurse_parse ⟨"t", ["a", "b"], ["m"]⟩ noFault
        [("x", PyTree.dict [("m", PyTree.str "v")])] []).connOpen = true := by
  simp [recurse_parse, recList, leafSelect, selectLine, noFault, modify_db_line, copyEntries,
    nullFill, slotHasKey, slotSet, assocSet, mapLast, selectPred, predVal, renderSlot,
    rowMatches, applySets, updateRow, updatePred, metricVal, metricVal.pyStrPlain,
    insertBulk, chunkList, insChunks, renderInsertRow, renderInsertRow.renderMetrics,
    renderRows, List.filter, List.lookup, List.all, List.zipWith, pyStrInner]

/-- **C6 amended**: the connection acquired at the start of flush is
closed exactly on normal completion — whenever the flush terminates with
a fatal error the close is skipped and the connection leaks (there is no
`finally`). -/
theorem connection_closed_iff_no_error (cfg : SqlCfg) (fault : Nat → Bool)
    (data : Dict) (store : Store) :
    (recurse_parse cfg fault data store).connOpen = false ↔
      (recurse_parse cfg fault data store).errored = false := by
  simp only [recurse_parse]
  set st1 := recList cfg fault data data 0
    { db_line := [], insert_list := [], store := store, ops := [],
      nsel := 0, errored := false, connOpen := true } with hst1
  have h1 : st1.connOpen = true := by rw [hst1, recList_connOpen]
  by_cases he : st1.errored = true
  · rw [if_pos he]
    simp [he, h1]
  · rw [if_neg he]
    have he' : st1.errored = false := by simpa using he
    by_cases hlen : 0 < st1.insert_list.length
    · rw [if_pos hlen]
      have h2 : (insertBulk cfg st1).connOpen = true := by
        rw [insertBulk_connOpen, h1]
      by_cases he2 : (insertBulk cfg st1).errored = true
      · rw [if_pos he2]
        simp [he2, h2]
      · rw [if_neg he2]
        have he2' : (insertBulk cfg st1).errored = false := by simpa using he2
        simp [he2']
    · rw [if_neg hlen, if_neg he]
      simp [he']

/-! ### C7: depth mismatch is processed, not rejected -/

/-- **C7**: at a depth-mismatched tree the flush does not fail and
reports nothing: with one dimension configured and a two-level branch,
the traversal issues a SELECT whose predicate covers only the first
dimension, matches a pre-existing row, updates it, and completes
normally (connection closed, no error, nothing buffered) — the malformed
branch is processed as an ordinary row. -/
theorem depth_mismatch_processed_silently :
    (recurse_parse ⟨"t", ["a"], ["m"]⟩ noFault
        [("x", PyTree.dict [("y", PyTree.dict [("m", PyTree.str "v")])])]
        [[("a", some "x"), ("m", none)]]).errored = false ∧
    (recurse_parse ⟨"t", ["a"], ["m"]⟩ noFault
        [("x", PyTree.dict [("y", PyTree.dict [("m", PyTree.str "v")])])]
        [[("a", some "x"), ("m", none)]]).connOpen = false ∧
    (recurse_parse ⟨"t", ["a"], ["m"]⟩ noFault
        [("x", PyTree.dict [("y", PyTree.dict [("m", PyTree.str "v")])])]
        [[("a", some "x"), ("m", none)]]).store
      = [[("a", some "x"), ("m", some "v")]] ∧
    (recurse_parse ⟨"t", ["a"], ["m"]⟩ noFault
        [("x", PyTree.dict [("y", PyTree.dict [("m", PyTree.str "v")])])]
        [[("a", some "x"), ("m", none)]]).ops
      = [DbOp.select [("a", some "x")],
         DbOp.update [("m", some "v")] [("a", some "x")]] ∧
    (recurse_parse ⟨"t", ["a"], ["m"]⟩ noFault
        [("x", PyTree.dict [("y", PyTree.dict [("m", PyTree.str "v")])])]
        [[("a", some "x"), ("m", none)]]).insert_list = [] := by
  simp [recurse_parse, recList, leafSelect, selectLine, noFault, modify_db_line, copyEntries,
    nullFill, slotHasKey, slotSet, assocSet, mapLast, selectPred, predVal, renderSlot,
    rowMatches, applySets, updateRow, updatePred, metricVal, metricVal.pyStrPlain,
    insertBulk, chunkList, insChunks, renderInsertRow, renderInsertRow.renderMetrics,
    renderRows, List.filter, List.lookup, List.all, List.zipWith, pyStrInner]

/-! ### C8: a per-row failure aborts the whole flush -/

/-- **C8 counterexample**: with two leaves to merge and the first
existence check failing, the flush aborts at once: only one SELECT is
ever attempted, nothing is logged to the trace, the second row is never
checked, no insert happens and the connection leaks — refuting the claim
that a per-row failure is caught and traversal continues. -/
theorem per_row_failure_not_caught_cex :
    (recurse_parse ⟨"e", ["date"], ["u"]⟩ (fun n => n == 0)
        [("2020", PyTree.dict [("u", PyTree.str "1")]),
         ("2021", PyTree.dict [("u", PyTree.str "2")])] []).errored = true ∧
    (recurse_parse ⟨"e", ["date"], ["u"]⟩ (fun n => n == 0)
        [("2020", PyTree.dict [("u", PyTree.str "1")]),
         ("2021", PyTree.dict [("u", PyTree.str "2")])] []).nsel = 1 ∧
    (recurse_parse ⟨"e", ["date"], ["u"]⟩ (fun n => n == 0)
        [("2020", PyTree.dict [("u", PyTree.str "1")]),
         ("2021", PyTree.dict [("u", PyTree.str "2")])] []).ops = [] ∧
    (recurse_parse ⟨"e", ["date"], ["u"]⟩ (fun n => n == 0)
        [("2020", PyTree.dict [("u", PyTree.str "1")]),
         ("2021", PyTree.dict [("u", PyTree.str "2")])] []).store = [] ∧
    (recurse_parse ⟨"e", ["date"], ["u"]⟩ (fun n => n == 0)
        [("2020", PyTree.dict [("u", PyTree.str "1")]),
         ("2021", PyTree.dict [("u", PyTree.str "2")])] []).connOpen = true := by
  simp [recurse_parse, recList, leafSelect, selectLine, modify_db_line, copyEntries,
    nullFill, slotHasKey, slotSet, assocSet, mapLast, selectPred, predVal, renderSlot,
    rowMatches, applySets, updateRow, updatePred, metricVal, metricVal.pyStrPlain,
    insertBulk, chunkList, insChunks, renderInsertRow, renderInsertRow.renderMetrics,
    renderRows, List.filter, List.lookup, List.all, List.zipWith, pyStrInner]

/-- **C8 amended**: a failing existence check is not caught per-row —
whenever the first SELECT of a flush that has at least one leaf faults,
the whole flush aborts: no operation is recorded, nothing further is
checked or buffered, the store is untouched and the connection is left
open. -/
theorem select_failure_aborts_flush (cfg : SqlCfg) (fault : Nat → Bool)
    (data : Dict) (store : Store)
    (hf : fault 0 = true) (hl : hasLeafD data = true) :
    (recurse_parse cfg fault data store).errored = true ∧
    (recurse_parse cfg fault data store).nsel = 1 ∧
    (recurse_parse cfg fault data store).ops = [] ∧
    (recurse_parse cfg fault data store).insert_list = [] ∧
    (recurse_parse cfg fault data store).store = store ∧
    (recurse_parse cfg fault data store).connOpen = true := by
  obtain ⟨dbl, hd⟩ := recList_fault_first cfg fault data data 0
    { db_line := [], insert_list := [], store := store, ops := [],
      nsel := 0, errored := false, connOpen := true } hl hf rfl
  simp only [recurse_parse]
  rw [hd]
  simp

theorem select_failure_aborts_flush_witness :
    ((fun n => n == 0) 0 = true ∧
     hasLeafD [("2020", PyTree.dict [("u", PyTree.str "1")]),
       ("2021", PyTree.dict [("u", PyTree.str "2")])] = true) ∧
    ((recurse_parse ⟨"e", ["date"], ["u"]⟩ (fun n => n == 0)
        [("2020", PyTree.dict [("u", PyTree.str "1")]),
         ("2021", PyTree.dict [("u", PyTree.str "2")])] []).errored = true ∧
     (recurse_parse ⟨"e", ["date"], ["u"]⟩ (fun n => n == 0)
        [("2020", PyTree.dict [("u", PyTree.str "1")]),
         ("2021", PyTree.dict [("u", PyTree.str "2")])] []).nsel = 1 ∧
     (recurse_parse ⟨"e", ["date"], ["u"]⟩ (fun n => n == 0)
        [("2020", PyTree.dict [("u", PyTree.str "1")]),
         ("2021", PyTree.dict [("u", PyTree.str "2")])] []).ops = [] ∧
     (recurse_parse ⟨"e", ["date"], ["u"]⟩ (fun n => n == 0)
        [("2020", PyTree.dict [("u", PyTree.str "1")]),
         ("2021", PyTree.dict [("u", PyTree.str "2")])] []).insert_list = [] ∧
     (recurse_parse ⟨"e", ["date"], ["u"]⟩ (fun n => n == 0)
        [("2020", PyTree.dict [("u", PyTree.str "1")]),
         ("2021", PyTree.dict [("u", PyTree.str "2")])] []).store = [] ∧
     (recurse_parse ⟨"e", ["date"], ["u"]⟩ (fun n => n == 0)
        [("2020", PyTree.dict [("u", PyTree.str "1")]),
         ("2021", PyTree.dict [("u", PyTree.str "2")])] []).connOpen = true) :=
  ⟨⟨rfl, by simp [hasLeafD]⟩,
    select_failure_aborts_flush ⟨"e", ["date"], ["u"]⟩ (fun n => n == 0)
      [("2020", PyTree.dict [("u", PyTree.str "1")]),
       ("2021", PyTree.dict [("u", PyTree.str "2")])] [] rfl (by simp [hasLeafD])⟩

/-! ### C2 counterexample: the "NULL" dimension value -/

/-- **C2 counterexample**: a RecordTree holding the string `"NULL"` as a
second-level dimension value defeats idempotence.  The existence check
renders that value as the unquoted `NULL` token while the insert stored
it as the quoted string, so the second flush never matches the row it
inserted on the first flush: it performs one additional insert and grows
the store from one row to two. -/
theorem reflush_not_idempotent_on_null_dimension_cex :
    (recurse_parse ⟨"t", ["a", "b"], ["m"]⟩ noFault
        [("x", PyTree.dict [("NULL", PyTree.dict [("m", PyTree.str "1")])])]
        []).store.length = 1 ∧
    (recurse_parse ⟨"t", ["a", "b"], ["m"]⟩ noFault
        [("x", PyTree.dict [("NULL", PyTree.dict [("m", PyTree.str "1")])])]
        (recurse_parse ⟨"t", ["a", "b"], ["m"]⟩ noFault
          [("x", PyTree.dict [("NULL", PyTree.dict [("m", PyTree.str "1")])])]
          []).store).store.length = 2 ∧
    (insertedTuples (recurse_parse ⟨"t", ["a", "b"], ["m"]⟩ noFault
        [("x", PyTree.dict [("NULL", PyTree.dict [("m", PyTree.str "1")])])]
        (recurse_parse ⟨"t", ["a", "b"], ["m"]⟩ noFault
          [("x", PyTree.dict [("NULL", PyTree.dict [("m", PyTree.str "1")])])]
          []).store).ops).length = 1 := by
  simp [recurse_parse, recList, leafSelect, selectLine, noFault, modify_db_line, copyEntries,
    nullFill, slotHasKey, slotSet, assocSet, mapLast, selectPred, predVal, renderSlot,
    rowMatches, applySets, updateRow, updatePred, metricVal, metricVal.pyStrPlain,
    insertBulk, chunkList, insChunks, renderInsertRow, renderInsertRow.renderMetrics,
    renderRows, insertedTuples, List.filter, List.lookup, List.all, List.zipWith, pyStrInner]

/-! ### Witnesses for the hypothesis-bearing theorems above -/

theorem select_existence_dispatch_witness :
    (let cfg : SqlCfg := ⟨"t", ["a"], ["m"]⟩
     let st : SqlSt := { db_line := [Slot.val "x", Slot.map [("m", PyTree.str "1")]],
                         insert_list := [], store := [], ops := [], nsel := 0,
                         errored := false, connOpen := true }
     let fm : Dict := [("m", PyTree.str "1")]
     noFault st.nsel = false ∧
     cfg.dimension_list.length ≤ st.db_line.length ∧
     st.db_line.getLast? = some (.map fm) ∧
     (∀ met ∈ cfg.metric_list, met ∈ fm.map Prod.fst) ∧
     ((selectPred cfg st.db_line).map Prod.fst = cfg.dimension_list ∧
      (if 1 ≤ (st.store.filter (rowMatches (selectPred cfg st.db_line))).length then
        (selectLine cfg noFault st).ops =
            st.ops ++ [DbOp.select (selectPred cfg st.db_line),
              DbOp.update (fm.map (fun p => (p.1, metricVal p.2)))
                (updatePred cfg st.db_line)] ∧
          (∀ met ∈ cfg.metric_list,
            met ∈ (fm.map (fun p => (p.1, metricVal p.2))).map Prod.fst) ∧
          (selectLine cfg noFault st).insert_list = st.insert_list
      else
        (selectLine cfg noFault st).ops =
            st.ops ++ [DbOp.select (selectPred cfg st.db_line)] ∧
          (selectLine cfg noFault st).insert_list = st.insert_list ++ [st.db_line] ∧
          (selectLine cfg noFault st).store = st.store))) :=
  ⟨rfl, by decide, rfl, by decide,
    select_existence_dispatch ⟨"t", ["a"], ["m"]⟩ noFault
      { db_line := [Slot.val "x", Slot.map [("m", PyTree.str "1")]],
        insert_list := [], store := [], ops := [], nsel := 0,
        errored := false, connOpen := true }
      [("m", PyTree.str "1")] rfl (by decide) rfl (by decide)⟩

theorem update_touches_only_metrics_witness :
    (let cfg : SqlCfg := ⟨"t", ["a"], ["m"]⟩
     let st : SqlSt := { db_line := [Slot.val "x", Slot.map [("m", PyTree.str "2")]],
                         insert_list := [], store := [[("a", some "x"), ("m", some "1")]],
                         ops := [], nsel := 0, errored := false, connOpen := true }
     let fm : Dict := [("m", PyTree.str "2")]
     st.db_line.getLast? = some (.map fm) ∧
     (∀ k ∈ fm.map Prod.fst, k ∈ cfg.metric_list) ∧
     (∀ f ∈ cfg.dimension_list, f ∉ cfg.metric_list) ∧
     ((updateRow cfg st).ops =
         st.ops ++ [DbOp.update (fm.map (fun p => (p.1, metricVal p.2)))
           (updatePred cfg st.db_line)] ∧
      (∀ p ∈ fm.map (fun p => (p.1, metricVal p.2)), p.1 ∉ cfg.dimension_list) ∧
      (updateRow cfg st).store.length = st.store.length ∧
      (∀ f ∈ cfg.dimension_list,
        (updateRow cfg st).store.map (fun r => r.lookup f) =
          st.store.map (fun r => r.lookup f)))) :=
  ⟨rfl, by decide, by decide,
    update_touches_only_metrics ⟨"t", ["a"], ["m"]⟩
      { db_line := [Slot.val "x", Slot.map [("m", PyTree.str "2")]],
        insert_list := [], store := [[("a", some "x"), ("m", some "1")]], ops := [],
        nsel := 0, errored := false, connOpen := true }
      [("m", PyTree.str "2")] rfl (by decide) (by decide)⟩

theorem missing_metric_null_marker_witness :
    (let cfg : SqlCfg := ⟨"economy", ["date"], ["unemployment", "gdp"]⟩
     let dataset : Dict := [("unemployment", PyTree.str "3.5")]
     "gdp" ∈ cfg.metric_list ∧
     cfg.metric_list.Nodup ∧
     "gdp" ∉ dataset.map Prod.fst ∧
     ((buildLeafMap cfg dataset).lookup "gdp" = some (.str "NULL") ∧
      PyTree.str "NULL" ≠ PyTree.str "0" ∧
      PyTree.str "NULL" ≠ PyTree.str "" ∧
      metricVal (.str "NULL") = none ∧
      metricVal (.str "NULL") ≠ some "NULL")) :=
  ⟨by decide, by decide, by decide,
    missing_metric_null_marker ⟨"economy", ["date"], ["unemployment", "gdp"]⟩
      [("unemployment", PyTree.str "3.5")] "gdp" (by decide) (by decide) (by decide)⟩

theorem merges_coalesce_one_leaf_witness :
    (let fdata : Dict := [("2019-01-01", PyTree.dict [("gdp", PyTree.str "9")])]
     ((fdata.map Prod.fst).Nodup ∧
      (∀ t, fdata.lookup "2019-01-01" = some t → ∃ m0, t = PyTree.dict m0) ∧
      ("unemployment" : String) ≠ "gdp") ∧
     (((List.nil : Dict).map Prod.fst).Nodup ∧
      (∀ t, (List.nil : Dict).lookup "2000-01-01" = some t → ∃ m0, t = PyTree.dict m0) ∧
      ("laborCostMil" : String) ≠ "capitalCostMil") ∧
     ((((fed_merge (fed_merge fdata "2019-01-01" "unemployment" "3.5")
            "2019-01-01" "gdp" "21").map Prod.fst).count "2019-01-01" = 1 ∧
       innerLookup (fed_merge (fed_merge fdata "2019-01-01" "unemployment" "3.5")
            "2019-01-01" "gdp" "21") "2019-01-01" "unemployment" = some (.str "3.5") ∧
       innerLookup (fed_merge (fed_merge fdata "2019-01-01" "unemployment" "3.5")
            "2019-01-01" "gdp" "21") "2019-01-01" "gdp" = some (.str "21") ∧
       (∀ c, c ≠ "unemployment" → c ≠ "gdp" →
         innerLookup (fed_merge (fed_merge fdata "2019-01-01" "unemployment" "3.5")
            "2019-01-01" "gdp" "21") "2019-01-01" c =
           innerLookup fdata "2019-01-01" c)) ∧
      (((bls_merge (bls_merge [] "2000-01-01" "laborCostMil" "7")
            "2000-01-01" "capitalCostMil" "8").map Prod.fst).count "2000-01-01" = 1 ∧
       innerLookup (bls_merge (bls_merge [] "2000-01-01" "laborCostMil" "7")
            "2000-01-01" "capitalCostMil" "8") "2000-01-01" "laborCostMil"
         = some (.str "7") ∧
       innerLookup (bls_merge (bls_merge [] "2000-01-01" "laborCostMil" "7")
            "2000-01-01" "capitalCostMil" "8") "2000-01-01" "capitalCostMil"
         = some (.str "8") ∧
       (∀ c, c ≠ "laborCostMil" → c ≠ "capitalCostMil" →
         innerLookup (bls_merge (bls_merge [] "2000-01-01" "laborCostMil" "7")
            "2000-01-01" "capitalCostMil" "8") "2000-01-01" c =
           innerLookup [] "2000-01-01" c)))) :=
  ⟨⟨by decide,
    by
      intro t ht
      rw [lookup_cons_eval, if_pos rfl] at ht
      cases ht
      exact ⟨_, rfl⟩,
    by decide⟩,
   ⟨by decide,
    by
      intro t ht
      simp [List.lookup] at ht,
    by decide⟩,
   merges_coalesce_one_leaf
     [("2019-01-01", PyTree.dict [("gdp", PyTree.str "9")])]
     "2019-01-01" "unemployment" "gdp" "3.5" "21"
     (by decide)
     (by
       intro t ht
       rw [lookup_cons_eval, if_pos rfl] at ht
       cases ht
       exact ⟨_, rfl⟩)
     (by decide)
     [] "2000-01-01" "laborCostMil" "capitalCostMil" "7" "8"
     (by decide)
     (by
       intro t ht
       simp [List.lookup] at ht)
     (by decide)⟩

/-! ### Shape lemmas for the traversal state -/

theorem updateRow_db_line (cfg : SqlCfg) (st : SqlSt) :
    (updateRow cfg st).db_line = st.db_line := by
  simp [updateRow]

theorem selectLine_db_line (cfg : SqlCfg) (fault : Nat → Bool) (st : SqlSt) :
    (selectLine cfg fault st).db_line = st.db_line := by
  unfold selectLine
  by_cases hf : fault st.nsel = true
  · simp [hf]
  · simp only [hf, Bool.false_eq_true, if_false]
    split
    · rw [updateRow_db_line]
    · rfl

theorem selectLine_noFault_errored (cfg : SqlCfg) (st : SqlSt) :
    (selectLine cfg noFault st).errored = st.errored := by
  unfold selectLine noFault
  simp only [Bool.false_eq_true, if_false]
  split
  · simp [updateRow]
  · rfl

theorem sameCore_refl (X : SqlSt) : sameCore X X :=
  ⟨rfl, rfl, rfl, rfl, rfl, rfl⟩

theorem sameCore_withLine (X : SqlSt) (L : List Slot) :
    sameCore { X with db_line := L } X :=
  ⟨rfl, rfl, rfl, rfl, rfl, rfl⟩

theorem sameCore_trans {X Y Z : SqlSt} (h1 : sameCore X Y) (h2 : sameCore Y Z) :
    sameCore X Z := by
  obtain ⟨a1, a2, a3, a4, a5, a6⟩ := h1
  obtain ⟨b1, b2, b3, b4, b5, b6⟩ := h2
  exact ⟨a1.trans b1, a2.trans b2, a3.trans b3, a4.trans b4, a5.trans b5, a6.trans b6⟩

theorem sameCore_withLine_eq {X Y : SqlSt} (L : List Slot) (h : sameCore X Y) :
    { X with db_line := L } = { Y with db_line := L } := by
  obtain ⟨xa, xb, xc, xd, xe, xf, xg⟩ := X
  obtain ⟨ya, yb, yc, yd, ye, yf, yg⟩ := Y
  obtain ⟨h1, h2, h3, h4, h5, h6⟩ := h
  simp only [] at h1 h2 h3 h4 h5 h6
  simp [h1, h2, h3, h4, h5, h6]

theorem rowStep_core_congr (cfg : SqlCfg) (fault : Nat → Bool) {X Y : SqlSt}
    (row : List String × Dict) (h : sameCore X Y) :
    rowStep cfg fault X row = rowStep cfg fault Y row := by
  unfold rowStep
  rw [sameCore_withLine_eq _ h]

theorem foldl_rowStep_core_congr (cfg : SqlCfg) (fault : Nat → Bool)
    (rows : List (List String × Dict)) :
    ∀ {X Y : SqlSt}, sameCore X Y →
      sameCore (List.foldl (rowStep cfg fault) X rows)
        (List.foldl (rowStep cfg fault) Y rows) := by
  induction rows with
  | nil => intro X Y h; simpa using h
  | cons r rest ih =>
      intro X Y h
      simp only [List.foldl_cons]
      rw [rowStep_core_congr cfg fault r h]
      exact ih (sameCore_refl _)

/-! ### Building the leaf row inside `_db_line` -/

theorem mapLast_snoc {α : Type} (f : α → α) (l : List α) (x : α) :
    mapLast f (l ++ [x]) = l ++ [f x] := by
  induction l with
  | nil => rfl
  | cons a rest ih =>
      cases rest with
      | nil => rfl
      | cons b rest2 => simpa [mapLast] using ih

theorem copyEntries_snoc_map (dataset : Dict) (L : List Slot) (m : Dict) :
    copyEntries dataset (L ++ [Slot.map m]) =
      L ++ [Slot.map (dataset.foldl (fun m p => assocSet p.1 p.2 m) m)] := by
  induction dataset generalizing m with
  | nil => rfl
  | cons p rest ih =>
      simp only [copyEntries, List.foldl_cons] at *
      rw [mapLast_snoc]
      simpa [slotSet] using ih (assocSet p.1 p.2 m)

theorem set_append_length {α : Type} (path : List α) (x : α) (xs : List α) (sl : α) :
    (path ++ x :: xs).set path.length sl = path ++ sl :: xs := by
  induction path with
  | nil => rfl
  | cons p ps ih => simpa [List.set] using ih

theorem modify_db_line_at_end (path rest : List Slot) (sl : Slot)
    (h : rest.length ≤ 1) :
    modify_db_line sl path.length (path ++ rest) = path ++ [sl] := by
  cases rest with
  | nil =>
      unfold modify_db_line
      rw [if_neg (by simp)]
      simp
  | cons x xs =>
      cases xs with
      | nil =>
          unfold modify_db_line
          rw [if_pos (by simp), set_append_length]
      | cons y ys => simp at h

theorem getD_snoc_length {α : Type} (L : List α) (x d : α) :
    (L ++ [x]).getD L.length d = x := by
  rw [List.getD_append_right L [x] d L.length (le_refl _)]
  simp

theorem nullFill_fold_snoc (L : List Slot) (mets : List String) (m : Dict) :
    mets.foldl (fun l met =>
      if slotHasKey (l.getD L.length (Slot.map [])) met then l
      else mapLast (slotSet met (.str "NULL")) l) (L ++ [Slot.map m]) =
    L ++ [Slot.map (mets.foldl (fun m met =>
      if (m.map Prod.fst).contains met then m
      else assocSet met (.str "NULL") m) m)] := by
  induction mets generalizing m with
  | nil => rfl
  | cons met rest ih =>
      simp only [List.foldl_cons, getD_snoc_length]
      by_cases hc : ((m.map Prod.fst).contains met : Bool)
      · rw [if_pos (by simpa [slotHasKey] using hc), if_pos hc]
        exact ih m
      · rw [if_neg (by simpa [slotHasKey] using hc), if_neg hc, mapLast_snoc]
        exact ih (assocSet met (.str "NULL") m)

theorem nullFill_snoc_map (cfg : SqlCfg) (L : List Slot) (m : Dict) :
    nullFill cfg L.length (L ++ [Slot.map m]) =
      L ++ [Slot.map (cfg.metric_list.foldl
        (fun m met =>
          if (m.map Prod.fst).contains met then m
          else assocSet met (.str "NULL") m) m)] := by
  unfold nullFill
  exact nullFill_fold_snoc L cfg.metric_list m

theorem built_line_eq (cfg : SqlCfg) (dataset : Dict) (path : List String)
    (rest : List Slot) (h : rest.length ≤ 1) :
    nullFill cfg path.length (copyEntries dataset
      (modify_db_line (Slot.map []) path.length (path.map Slot.val ++ rest))) =
      rowOfLeaf path (buildLeafMap cfg dataset) := by
  have hlen : (path.map Slot.val).length = path.length := by simp
  rw [← hlen, modify_db_line_at_end _ _ _ h, copyEntries_snoc_map, nullFill_snoc_map]
  rfl

/-! ### Facts about the built leaf dict -/

theorem mem_keys_lookup_isSome {α : Type} (m : List (String × α)) (k : String)
    (h : k ∈ m.map Prod.fst) : ∃ v, m.lookup k = some v := by
  cases hv : m.lookup k with
  | some v => exact ⟨v, rfl⟩
  | none => exact absurd ((lookup_eq_none_iff m k).mp hv) (by simpa using h)

theorem assocSet_keys_nodup {α : Type} (k : String) (v : α) (m : List (String × α))
    (h : (m.map Prod.fst).Nodup) : ((assocSet k v m).map Prod.fst).Nodup := by
  by_cases hk : k ∈ m.map Prod.fst
  · rw [assocSet_map_fst_mem k v m hk]
    exact h
  · rw [assocSet_map_fst_not_mem k v m hk]
    simp [List.nodup_append, h, hk]

theorem foldl_assocSet_nodup (l : Dict) (init : Dict)
    (h : (init.map Prod.fst).Nodup) :
    (((l.foldl (fun m p => assocSet p.1 p.2 m) init)).map Prod.fst).Nodup := by
  induction l generalizing init with
  | nil => simpa using h
  | cons p rest ih =>
      simp only [List.foldl_cons]
      exact ih _ (assocSet_keys_nodup p.1 p.2 init h)

theorem buildLeafMap_keys_nodup (cfg : SqlCfg) (dataset : Dict) :
    ((buildLeafMap cfg dataset).map Prod.fst).Nodup := by
  unfold buildLeafMap
  generalize hinit : dataset.foldl (fun m p => assocSet p.1 p.2 m) [] = init
  have h0 : (init.map Prod.fst).Nodup := by
    rw [← hinit]
    exact foldl_assocSet_nodup dataset [] (by simp)
  clear hinit
  generalize cfg.metric_list = mets
  induction mets generalizing init with
  | nil => simpa using h0
  | cons met rest ih =>
      simp only [List.foldl_cons]
      by_cases hc : ((init.map Prod.fst).contains met : Bool)
      · rw [if_pos hc]
        exact ih init h0
      · rw [if_neg hc]
        exact ih _ (assocSet_keys_nodup met _ init h0)

theorem buildLeafMap_keys_sub (cfg : SqlCfg) (dataset : Dict)
    (hds : ∀ x ∈ dataset.map Prod.fst, x ∈ cfg.metric_list) :
    ∀ x ∈ (buildLeafMap cfg dataset).map Prod.fst, x ∈ cfg.metric_list := by
  unfold buildLeafMap
  have key : ∀ (ms : List String) (acc : Dict),
      (∀ x ∈ acc.map Prod.fst, x ∈ cfg.metric_list) →
      (∀ x ∈ ms, x ∈ cfg.metric_list) →
      ∀ x ∈ ((ms.foldl (fun m met =>
        if (m.map Prod.fst).contains met then m
        else assocSet met (.str "NULL") m) acc).map Prod.fst), x ∈ cfg.metric_list := by
    intro ms
    induction ms with
    | nil => intro acc hacc _; simpa using hacc
    | cons m0 rest ih =>
        intro acc hacc hms
        simp only [List.foldl_cons]
        by_cases hc : ((acc.map Prod.fst).contains m0 : Bool)
        · rw [if_pos hc]
          exact ih acc hacc (fun x hx => hms x (by simp [hx]))
        · rw [if_neg hc]
          apply ih _ _ (fun x hx => hms x (by simp [hx]))
          intro x hx
          rcases assocSet_mem_keys m0 x _ acc hx with h1 | h1
          · exact hacc x h1
          · exact hms x (by simp [h1])
  apply key cfg.metric_list _ _ (fun x hx => hx)
  intro x hx
  rcases foldl_assocSet_keys dataset [] x hx with h1 | h1
  · simp at h1
  · exact hds x h1

theorem buildLeafMap_covers (cfg : SqlCfg) (dataset : Dict) :
    ∀ met ∈ cfg.metric_list, ∃ v, (buildLeafMap cfg dataset).lookup met = some v := by
  unfold buildLeafMap
  generalize dataset.foldl (fun m p => assocSet p.1 p.2 m) [] = init
  generalize cfg.metric_list = mets
  have key : ∀ (ms : List String) (acc : Dict) (met : String),
      met ∈ ms ∨ (∃ v, acc.lookup met = some v) →
      ∃ v, (ms.foldl (fun m met =>
        if (m.map Prod.fst).contains met then m
        else assocSet met (.str "NULL") m) acc).lookup met = some v := by
    intro ms
    induction ms with
    | nil =>
        intro acc met h
        rcases h with h | h
        · simp at h
        · simpa using h
    | cons m0 rest ih =>
        intro acc met h
        simp only [List.foldl_cons]
        by_cases hc : ((acc.map Prod.fst).contains m0 : Bool)
        · rw [if_pos hc]
          apply ih
          rcases h with h | h
          · rcases (by simpa using h : met = m0 ∨ met ∈ rest) with h1 | h1
            · right
              subst h1
              exact mem_keys_lookup_isSome acc met (by simpa using hc)
            · left; exact h1
          · right; exact h
        · rw [if_neg hc]
          apply ih
          rcases h with h | h
          · rcases (by simpa using h : met = m0 ∨ met ∈ rest) with h1 | h1
            · right
              subst h1
              exact ⟨_, assocSet_lookup_self met _ acc⟩
            · left; exact h1
          · right
            obtain ⟨v, hv⟩ := h
            by_cases hmm : met = m0
            · subst hmm
              exact ⟨_, assocSet_lookup_self met _ acc⟩
            · exact ⟨v, by rw [assocSet_lookup_ne m0 met _ acc hmm, hv]⟩
  intro met hmet
  exact key mets init met (Or.inl hmet)

/-! ### Well-formedness plumbing -/

theorem rowsGo_nil (cfg : SqlCfg) (path : List String) (dataset : Dict) :
    rowsGo cfg path dataset [] = [] := by
  rw [rowsGo.eq_def]

theorem rowsGo_cons_dict (cfg : SqlCfg) (path : List String) (dataset : Dict)
    (k : String) (sub rest : Dict) :
    rowsGo cfg path dataset ((k, PyTree.dict sub) :: rest) =
      rowsGo cfg (path ++ [k]) sub sub ++ rowsGo cfg path dataset rest := by
  rw [rowsGo.eq_def]

theorem rowsGo_cons_str (cfg : SqlCfg) (path : List String) (dataset : Dict)
    (k s : String) (rest : Dict) :
    rowsGo cfg path dataset ((k, PyTree.str s) :: rest) =
      [(path, buildLeafMap cfg dataset)] := by
  rw [rowsGo.eq_def]

theorem wfL_zero (cfg : SqlCfg) (m : Dict) :
    wfL cfg 0 m = (nodupKeysB m && m.all (leafEntryOK cfg)) := by
  rw [wfL]

theorem wfL_succ (cfg : SqlCfg) (k : Nat) (m : Dict) :
    wfL cfg (k + 1) m = (nodupKeysB m && childrenWF cfg k m) := by
  rw [wfL]

theorem childrenWF_mem (cfg : SqlCfg) (k : Nat) :
    ∀ (m : Dict), childrenWF cfg k m = true →
      ∀ p ∈ m, ∃ sub, p.2 = PyTree.dict sub ∧ wfL cfg k sub = true := by
  intro m
  induction m with
  | nil => intro _ p hp; simp at hp
  | cons q rest ih =>
      intro h p hp
      obtain ⟨qk, qv⟩ := q
      cases qv with
      | str s => rw [childrenWF] at h; cases h
      | dict sub =>
          rw [childrenWF, Bool.and_eq_true] at h
          rcases (by simpa using hp) with h1 | h1
          · rw [h1]
            exact ⟨sub, rfl, h.1⟩
          · exact ih h.2 p h1

theorem wfL_to_remWF (cfg : SqlCfg) (k : Nat) (m : Dict)
    (h : wfL cfg k m = true) : remWF cfg k m m := by
  cases k with
  | zero => exact ⟨h, fun p hp => hp⟩
  | succ k' =>
      rw [wfL_succ, Bool.and_eq_true] at h
      intro p hp
      exact childrenWF_mem cfg k' m h.2 p hp

theorem modify_db_line_general (path rest : List Slot) (sl : Slot) :
    modify_db_line sl path.length (path ++ rest) =
      path ++ (match rest with | [] => [sl] | _ :: xs => sl :: xs) := by
  cases rest with
  | nil =>
      unfold modify_db_line
      rw [if_neg (by simp)]
      simp
  | cons x xs =>
      unfold modify_db_line
      rw [if_pos (by simp), set_append_length]

theorem foldl_rowStep_errored (cfg : SqlCfg) (rows : List (List String × Dict)) :
    ∀ st : SqlSt, (List.foldl (rowStep cfg noFault) st rows).errored = st.errored := by
  induction rows with
  | nil => intro st; rfl
  | cons r rest ih =>
      intro st
      rw [List.foldl_cons, ih]
      unfold rowStep
      rw [selectLine_noFault_errored]

/-! ### The traversal is the fold of the existence check over the leaf rows -/

theorem recList_eq_fold (cfg : SqlCfg) :
    ∀ (remaining : Dict) (k : Nat) (dataset : Dict) (path : List String)
      (rowIndex : Nat) (rest : List Slot) (st : SqlSt),
      remWF cfg k dataset remaining →
      rowIndex = path.length →
      st.db_line = path.map Slot.val ++ rest →
      rest.length ≤ k + 1 →
      st.errored = false →
      ∃ rest2,
        recList cfg noFault dataset remaining rowIndex st =
          { List.foldl (rowStep cfg noFault) st (rowsGo cfg path dataset remaining) with
            db_line := path.map Slot.val ++ rest2 } ∧
        rest2.length ≤ k + 1 := by
  intro remaining
  induction remaining using hasLeafD.induct with
  | case1 =>
      intro k dataset path rowIndex rest st hwf hidx hline hrest herr
      refine ⟨rest, ?_, hrest⟩
      rw [recList_nil _ _ _ _ _ herr, rowsGo_nil, List.foldl_nil, ← hline]
  | case2 k0 s rest2 =>
      intro k dataset path rowIndex rest st hwf hidx hline hrest herr
      cases k with
      | succ k' =>
          obtain ⟨sub, hsub, _⟩ := hwf (k0, PyTree.str s) (by simp)
          cases hsub
      | zero =>
          obtain ⟨hleafwf, hsubset⟩ := hwf
          subst hidx
          refine ⟨[Slot.map (buildLeafMap cfg dataset)], ?_, by simp⟩
          rw [recList_cons_str _ _ _ _ _ _ _ _ herr]
          unfold leafSelect
          rw [hline, built_line_eq cfg dataset path rest hrest]
          rw [rowsGo_cons_str, List.foldl_cons, List.foldl_nil]
          unfold rowStep
          have hdb : (selectLine cfg noFault
              { st with db_line := rowOfLeaf path (buildLeafMap cfg dataset) }).db_line
              = path.map Slot.val ++ [Slot.map (buildLeafMap cfg dataset)] := by
            rw [selectLine_db_line]
            rfl
          rw [← hdb]
  | case3 k0 sub rest2 ih_sub ih_rest =>
      intro k dataset path rowIndex rest st hwf hidx hline hrest herr
      cases k with
      | zero =>
          obtain ⟨hleafwf, hsubset⟩ := hwf
          rw [wfL_zero, Bool.and_eq_true, List.all_eq_true] at hleafwf
          have := hleafwf.2 (k0, PyTree.dict sub) (hsubset _ (by simp))
          rw [leafEntryOK] at this
          simp at this
      | succ k' =>
          subst hidx
          obtain ⟨sub', hsub', hwfsub0⟩ := hwf (k0, PyTree.dict sub) (by simp)
          have hsub2 : PyTree.dict sub = PyTree.dict sub' := hsub'
          have hwfsub : wfL cfg k' sub = true := by
            injection hsub2 with heq
            rw [heq]
            exact hwfsub0
          have hst1line : (modify_db_line (Slot.val k0) path.length st.db_line)
              = (path ++ [k0]).map Slot.val ++ rest.tail := by
            rw [hline]
            have h1 : (path.map Slot.val).length = path.length := by simp
            rw [← h1, modify_db_line_general]
            cases rest with
            | nil => simp
            | cons x xs => simp
          have hresttail : rest.tail.length ≤ k' + 1 := by
            cases rest with
            | nil => simp
            | cons x xs =>
                simp only [List.tail_cons]
                have := hrest
                simp only [List.length_cons] at this
                omega
          obtain ⟨restS, hS, hSlen⟩ := ih_sub k' sub (path ++ [k0]) (path.length + 1)
            rest.tail { st with db_line := modify_db_line (Slot.val k0) path.length st.db_line }
            (wfL_to_remWF cfg k' sub hwfsub) (by simp) hst1line hresttail herr
          have hMidErr : ({ List.foldl (rowStep cfg noFault)
              { st with db_line := modify_db_line (Slot.val k0) path.length st.db_line }
              (rowsGo cfg (path ++ [k0]) sub sub) with
              db_line := (path ++ [k0]).map Slot.val ++ restS } : SqlSt).errored = false := by
            have h1 := foldl_rowStep_errored cfg (rowsGo cfg (path ++ [k0]) sub sub)
              { st with db_line := modify_db_line (Slot.val k0) path.length st.db_line }
            simp only [] at h1 ⊢
            rw [h1]
            exact herr
          have hMidLine : ({ List.foldl (rowStep cfg noFault)
              { st with db_line := modify_db_line (Slot.val k0) path.length st.db_line }
              (rowsGo cfg (path ++ [k0]) sub sub) with
              db_line := (path ++ [k0]).map Slot.val ++ restS } : SqlSt).db_line
              = path.map Slot.val ++ (Slot.val k0 :: restS) := by
            simp
          obtain ⟨restR, hR, hRlen⟩ := ih_rest (k' + 1) dataset path path.length
            (Slot.val k0 :: restS) _
            (fun p hp => hwf p (by simp [hp])) rfl hMidLine
            (by simpa using hSlen) hMidErr
          refine ⟨restR, ?_, hRlen⟩
          rw [recList_cons_dict _ _ _ _ _ _ _ _ herr, hS, hR,
            rowsGo_cons_dict, List.foldl_append]
          apply sameCore_withLine_eq
          apply foldl_rowStep_core_congr
          apply sameCore_trans (sameCore_withLine _ _)
          exact foldl_rowStep_core_congr cfg noFault _ (sameCore_withLine st _)

/-! ### One existence-check step, described against the current store -/

theorem getLast_rowOfLeaf (path : List String) (m : Dict) :
    (rowOfLeaf path m).getLast? = some (Slot.map m) := by
  unfold rowOfLeaf
  exact List.getLast?_concat _

theorem updatePred_map_fst (cfg : SqlCfg) (line : List Slot)
    (h : cfg.dimension_list.length ≤ line.length) :
    (updatePred cfg line).map Prod.fst = cfg.dimension_list := by
  obtain ⟨tb, dl, ml⟩ := cfg
  cases dl with
  | nil => cases line <;> simp [updatePred]
  | cons d0 ds =>
      cases line with
      | nil => simp at h
      | cons s0 ss =>
          simp only [updatePred, List.map_cons, List.cons.injEq, true_and]
          exact map_fst_zipWith_pair (fun sl => some (renderSlot sl)) ds ss (by simpa using h)

theorem rowStep_char (cfg : SqlCfg) (st : SqlSt) (row : List String × Dict) :
    (rowStep cfg noFault st row).store = st.store.map (rowEffect cfg st.store row) ∧
    (rowStep cfg noFault st row).insert_list =
      st.insert_list ++
        (if noMatchIn cfg st.store row then [rowOfLeaf row.1 row.2] else []) ∧
    (rowStep cfg noFault st row).ops = st.ops ++ opsOfRow cfg st.store row := by
  unfold rowStep selectLine noFault
  simp only [Bool.false_eq_true, if_false]
  by_cases hc : 1 ≤ (st.store.filter
      (rowMatches (selectPred cfg (rowOfLeaf row.1 row.2)))).length
  · rw [if_pos (by simpa using hc)]
    have hnm : noMatchIn cfg st.store row = false := by
      unfold noMatchIn
      simp only [decide_eq_false_iff_not]
      omega
    unfold updateRow
    simp only [getLast_rowOfLeaf]
    refine ⟨?_, by simp [hnm], ?_⟩
    · apply List.map_congr_left
      intro r _
      unfold rowEffect
      rw [if_pos hc]
    · unfold opsOfRow
      rw [if_pos hc]
      simp
  · rw [if_neg (by simpa using hc)]
    have hnm : noMatchIn cfg st.store row = true := by
      unfold noMatchIn
      simp only [decide_eq_true_eq]
      omega
    refine ⟨?_, by simp [hnm], ?_⟩
    · have : st.store.map (rowEffect cfg st.store row) = st.store := by
        have h1 : ∀ r ∈ st.store, rowEffect cfg st.store row r = r := by
          intro r _
          unfold rowEffect
          rw [if_neg hc]
        calc st.store.map (rowEffect cfg st.store row)
            = st.store.map (fun r => r) := List.map_congr_left h1
          _ = st.store := List.map_id _
      rw [this]
    · unfold opsOfRow
      rw [if_neg hc]

/-! ### Match counts are stable across steps -/

theorem rowEffect_lookup_dim (cfg : SqlCfg)
    (hdisj : ∀ f ∈ cfg.dimension_list, f ∉ cfg.metric_list)
    (S0 : Store) (row : List String × Dict) (r : StoreRow) (f : String)
    (hkeys : ∀ x ∈ row.2.map Prod.fst, x ∈ cfg.metric_list)
    (hf : f ∈ cfg.dimension_list) :
    (rowEffect cfg S0 row r).lookup f = r.lookup f := by
  unfold rowEffect
  split
  · split
    · apply applySets_lookup_not_mem
      intro hcmem
      have h1 : (row.2.map (fun p => (p.1, metricVal p.2))).map Prod.fst
          = row.2.map Prod.fst := by simp
      rw [h1] at hcmem
      exact hdisj f hf (hkeys f hcmem)
    · rfl
  · rfl

theorem length_filter_map_congr {α : Type} (f : α → α) (q : α → Bool) (l : List α)
    (h : ∀ r, q (f r) = q r) :
    ((l.map f).filter q).length = (l.filter q).length := by
  rw [List.filter_map]
  rw [List.length_map]
  congr 1
  apply List.filter_congr
  intro r _
  exact h r

theorem selectPred_keys_mem (cfg : SqlCfg) (row : List String × Dict)
    (hlen : row.1.length = cfg.dimension_list.length) :
    ∀ p ∈ selectPred cfg (rowOfLeaf row.1 row.2), p.1 ∈ cfg.dimension_list := by
  intro p hp
  have h1 : (selectPred cfg (rowOfLeaf row.1 row.2)).map Prod.fst
      = cfg.dimension_list := by
    apply selectPred_map_fst
    unfold rowOfLeaf
    simp [hlen]
  rw [← h1]
  exact List.mem_map_of_mem Prod.fst hp

theorem filter_length_map_rowEffect (cfg : SqlCfg)
    (hdisj : ∀ f ∈ cfg.dimension_list, f ∉ cfg.metric_list)
    (S0 S : Store) (row : List String × Dict)
    (pred : List (String × SqlVal))
    (hkeys : ∀ x ∈ row.2.map Prod.fst, x ∈ cfg.metric_list)
    (hpred : ∀ p ∈ pred, p.1 ∈ cfg.dimension_list) :
    ((S.map (rowEffect cfg S0 row)).filter (rowMatches pred)).length
      = (S.filter (rowMatches pred)).length := by
  apply length_filter_map_congr
  intro r
  apply rowMatches_congr
  intro p hp
  exact rowEffect_lookup_dim cfg hdisj S0 row r p.1 hkeys (hpred p hp)

theorem rowEffect_congr_store (cfg : SqlCfg) (S1 S2 : Store) (row : List String × Dict)
    (hcnt : (S1.filter (rowMatches (selectPred cfg (rowOfLeaf row.1 row.2)))).length
          = (S2.filter (rowMatches (selectPred cfg (rowOfLeaf row.1 row.2)))).length) :
    rowEffect cfg S1 row = rowEffect cfg S2 row := by
  funext r
  unfold rowEffect
  rw [hcnt]

theorem noMatchIn_congr_store (cfg : SqlCfg) (S1 S2 : Store) (row : List String × Dict)
    (hcnt : (S1.filter (rowMatches (selectPred cfg (rowOfLeaf row.1 row.2)))).length
          = (S2.filter (rowMatches (selectPred cfg (rowOfLeaf row.1 row.2)))).length) :
    noMatchIn cfg S1 row = noMatchIn cfg S2 row := by
  unfold noMatchIn
  rw [hcnt]

theorem opsOfRow_congr_store (cfg : SqlCfg) (S1 S2 : Store) (row : List String × Dict)
    (hcnt : (S1.filter (rowMatches (selectPred cfg (rowOfLeaf row.1 row.2)))).length
          = (S2.filter (rowMatches (selectPred cfg (rowOfLeaf row.1 row.2)))).length) :
    opsOfRow cfg S1 row = opsOfRow cfg S2 row := by
  unfold opsOfRow
  rw [hcnt]

theorem applyRows_congr (cfg : SqlCfg) (S1 S2 : Store)
    (rows : List (List String × Dict))
    (h : ∀ row ∈ rows, rowEffect cfg S1 row = rowEffect cfg S2 row) :
    applyRows cfg S1 rows = applyRows cfg S2 rows := by
  funext r
  unfold applyRows
  induction rows generalizing r with
  | nil => rfl
  | cons row rest ih =>
      simp only [List.foldl_cons]
      rw [h row (by simp)]
      exact ih (fun q hq => h q (by simp [hq])) _

/-! ### The whole fold, described against the initial store -/

theorem foldl_rowStep_char (cfg : SqlCfg)
    (hdisj : ∀ f ∈ cfg.dimension_list, f ∉ cfg.metric_list) :
    ∀ (rows : List (List String × Dict)) (st : SqlSt),
      (∀ row ∈ rows, (∀ x ∈ row.2.map Prod.fst, x ∈ cfg.metric_list) ∧
        row.1.length = cfg.dimension_list.length) →
      (List.foldl (rowStep cfg noFault) st rows).store
          = st.store.map (applyRows cfg st.store rows) ∧
      (List.foldl (rowStep cfg noFault) st rows).insert_list
          = st.insert_list ++ (rows.filter (noMatchIn cfg st.store)).map
              (fun row => rowOfLeaf row.1 row.2) ∧
      (List.foldl (rowStep cfg noFault) st rows).ops
          = st.ops ++ (rows.map (opsOfRow cfg st.store)).flatten := by
  intro rows
  induction rows with
  | nil =>
      intro st _
      refine ⟨?_, by simp, by simp⟩
      have h1 : ∀ r ∈ st.store, applyRows cfg st.store [] r = r := by
        intro r _
        rfl
      calc st.store = st.store.map (fun r => r) := (List.map_id _).symm
        _ = st.store.map (applyRows cfg st.store []) :=
            (List.map_congr_left h1).symm
  | cons row rest ih =>
      intro st hrows
      obtain ⟨hkeys, hlen⟩ := hrows row (by simp)
      have hrest : ∀ q ∈ rest, (∀ x ∈ q.2.map Prod.fst, x ∈ cfg.metric_list) ∧
          q.1.length = cfg.dimension_list.length :=
        fun q hq => hrows q (by simp [hq])
      obtain ⟨hstore1, hins1, hops1⟩ := rowStep_char cfg st row
      obtain ⟨hstore2, hins2, hops2⟩ := ih (rowStep cfg noFault st row) hrest
      have hcnt : ∀ q, q ∈ rest →
          (((rowStep cfg noFault st row).store).filter
            (rowMatches (selectPred cfg (rowOfLeaf q.1 q.2)))).length
          = (st.store.filter (rowMatches (selectPred cfg (rowOfLeaf q.1 q.2)))).length := by
        intro q hq
        rw [hstore1]
        exact filter_length_map_rowEffect cfg hdisj st.store st.store row _ hkeys
          (selectPred_keys_mem cfg q (hrest q hq).2)
      have heff : applyRows cfg (rowStep cfg noFault st row).store rest
          = applyRows cfg st.store rest :=
        applyRows_congr cfg _ _ rest
          (fun q hq => rowEffect_congr_store cfg _ _ q (hcnt q hq))
      have hnm : ∀ q ∈ rest,
          noMatchIn cfg (rowStep cfg noFault st row).store q = noMatchIn cfg st.store q :=
        fun q hq => noMatchIn_congr_store cfg _ _ q (hcnt q hq)
      have hop : ∀ q ∈ rest,
          opsOfRow cfg (rowStep cfg noFault st row).store q = opsOfRow cfg st.store q :=
        fun q hq => opsOfRow_congr_store cfg _ _ q (hcnt q hq)
      refine ⟨?_, ?_, ?_⟩
      · rw [List.foldl_cons, hstore2, heff, hstore1, List.map_map]
        exact List.map_congr_left (fun r _ => rfl)
      · rw [List.foldl_cons, hins2, List.filter_congr hnm, hins1, List.filter_cons]
        by_cases hq : noMatchIn cfg st.store row = true
        · rw [if_pos hq, if_pos hq]
          simp
        · rw [if_neg hq, if_neg (by simpa using hq)]
          simp
      · rw [List.foldl_cons, hops2, List.map_congr_left hop, hops1]
        simp

/-! ### The produced leaf rows are well shaped -/

theorem rowsGo_facts (cfg : SqlCfg) :
    ∀ (remaining : Dict) (k : Nat) (dataset : Dict) (path : List String),
      remWF cfg k dataset remaining →
      ∀ row ∈ rowsGo cfg path dataset remaining,
        row.1.length = path.length + k ∧
        (∀ x ∈ row.2.map Prod.fst, x ∈ cfg.metric_list) ∧
        (∀ met ∈ cfg.metric_list, ∃ v, row.2.lookup met = some v) ∧
        (row.2.map Prod.fst).Nodup := by
  intro remaining
  induction remaining using hasLeafD.induct with
  | case1 =>
      intro k dataset path hwf row hrow
      rw [rowsGo_nil] at hrow
      simp at hrow
  | case2 k0 s rest =>
      intro k dataset path hwf row hrow
      cases k with
      | succ k' =>
          obtain ⟨sub, hsub, _⟩ := hwf (k0, PyTree.str s) (by simp)
          cases hsub
      | zero =>
          obtain ⟨hleafwf, hsubset⟩ := hwf
          rw [rowsGo_cons_str] at hrow
          have hroweq : row = (path, buildLeafMap cfg dataset) := by simpa using hrow
          subst hroweq
          refine ⟨by simp, ?_, buildLeafMap_covers cfg dataset,
            buildLeafMap_keys_nodup cfg dataset⟩
          apply buildLeafMap_keys_sub
          intro x hx
          rw [wfL_zero, Bool.and_eq_true, List.all_eq_true] at hleafwf
          obtain ⟨p, hp, hpx⟩ := List.mem_map.mp hx
          have hok := hleafwf.2 p hp
          rw [leafEntryOK, Bool.and_eq_true] at hok
          rw [← hpx]
          simpa using hok.2
  | case3 k0 sub rest ih1 ih2 =>
      intro k dataset path hwf row hrow
      cases k with
      | zero =>
          obtain ⟨hleafwf, hsubset⟩ := hwf
          rw [wfL_zero, Bool.and_eq_true, List.all_eq_true] at hleafwf
          have := hleafwf.2 (k0, PyTree.dict sub) (hsubset _ (by simp))
          rw [leafEntryOK] at this
          simp at this
      | succ k' =>
          rw [rowsGo_cons_dict] at hrow
          rcases List.mem_append.mp hrow with h1 | h1
          · obtain ⟨sub', hsub', hwfsub0⟩ := hwf (k0, PyTree.dict sub) (by simp)
            have hsub2 : PyTree.dict sub = PyTree.dict sub' := hsub'
            have hwfsub : wfL cfg k' sub = true := by
              injection hsub2 with heq
              rw [heq]
              exact hwfsub0
            have hfacts := ih1 k' sub (path ++ [k0])
              (wfL_to_remWF cfg k' sub hwfsub) row h1
            refine ⟨?_, hfacts.2.1, hfacts.2.2.1, hfacts.2.2.2⟩
            rw [hfacts.1]
            simp
            omega
          · exact ih2 (k' + 1) dataset path (fun p hp => hwf p (by simp [hp])) row h1

/-! ### Rendering a well-formed leaf row for the bulk insert -/

theorem renderMetrics_total (fm : Dict) :
    ∀ (mets : List String), (∀ k ∈ mets, ∃ v, fm.lookup k = some v) →
      renderInsertRow.renderMetrics fm mets
        = some (mets.map (fun k => metricVal ((fm.lookup k).getD (.str "NULL")))) := by
  intro mets
  induction mets with
  | nil => intro _; rfl
  | cons k ks ih =>
      intro hcov
      obtain ⟨v, hv⟩ := hcov k (by simp)
      unfold renderInsertRow.renderMetrics
      rw [hv, ih (fun q hq => hcov q (by simp [hq]))]
      simp [hv]

theorem renderInsertRow_eq (cfg : SqlCfg) (path : List String) (fm : Dict)
    (hne : path ≠ [])
    (hcov : ∀ k ∈ cfg.metric_list, ∃ v, fm.lookup k = some v) :
    renderInsertRow cfg (rowOfLeaf path fm) = some (renderLeafVals cfg path fm) := by
  cases path with
  | nil => cases hne rfl
  | cons p0 ps =>
      have hrow : rowOfLeaf (p0 :: ps) fm
          = Slot.val p0 :: (ps.map Slot.val ++ [Slot.map fm]) := by
        unfold rowOfLeaf
        simp
      have hlast : (Slot.val p0 :: (ps.map Slot.val ++ [Slot.map fm])).getLast?
          = some (Slot.map fm) := by
        rw [show Slot.val p0 :: (ps.map Slot.val ++ [Slot.map fm])
            = (Slot.val p0 :: ps.map Slot.val) ++ [Slot.map fm] by simp]
        exact List.getLast?_concat _
      have hdrop : (ps.map Slot.val ++ [Slot.map fm]).dropLast = ps.map Slot.val := by
        simp
      rw [hrow]
      simp only [renderInsertRow, hlast,
        renderMetrics_total fm cfg.metric_list hcov, hdrop]
      unfold renderLeafVals
      simp only [Option.some.injEq, List.cons.injEq]
      refine ⟨rfl, ?_⟩
      congr 1
      rw [List.map_map]
      apply List.map_congr_left
      intro s _
      rfl

theorem renderLeafVals_length (cfg : SqlCfg) (path : List String) (fm : Dict)
    (hne : path ≠ []) (hlen : path.length = cfg.dimension_list.length) :
    (renderLeafVals cfg path fm).length
      = (cfg.dimension_list ++ cfg.metric_list).length := by
  cases path with
  | nil => cases hne rfl
  | cons p0 ps =>
      unfold renderLeafVals
      simp only [List.length_cons, List.length_append, List.length_map]
      simp only [List.length_cons] at hlen
      omega

/-! ### Chunking the pending buffer -/

theorem chunkList_nil {α : Type} (k : Nat) : chunkList k ([] : List α) = [] := by
  rw [chunkList.eq_def]

theorem chunkList_cons {α : Type} (k : Nat) (x : α) (xs : List α) (hk : k ≠ 0) :
    chunkList k (x :: xs) = (x :: xs).take k :: chunkList k ((x :: xs).drop k) := by
  rw [chunkList.eq_def]
  simp [hk]

theorem chunkList_flatten {α : Type} (k : Nat) (hk : k ≠ 0) :
    ∀ l : List α, (chunkList k l).flatten = l := by
  have H : ∀ (n : Nat) (l : List α), l.length ≤ n → (chunkList k l).flatten = l := by
    intro n
    induction n with
    | zero =>
        intro l hl
        cases l with
        | nil => rw [chunkList_nil]; rfl
        | cons x xs => simp at hl
    | succ n ih =>
        intro l hl
        cases l with
        | nil => rw [chunkList_nil]; rfl
        | cons x xs =>
            have hdl : ((x :: xs).drop k).length ≤ n := by
              simp only [List.length_drop, List.length_cons]
              simp only [List.length_cons] at hl
              omega
            rw [chunkList_cons k x xs hk, List.flatten_cons, ih _ hdl,
              List.take_append_drop]
  exact fun l => H l.length l (le_refl _)

theorem chunkList_chunk_le {α : Type} (k : Nat) (hk : k ≠ 0) :
    ∀ (l : List α) (c : List α), c ∈ chunkList k l → c.length ≤ k := by
  have H : ∀ (n : Nat) (l : List α), l.length ≤ n →
      ∀ c, c ∈ chunkList k l → c.length ≤ k := by
    intro n
    induction n with
    | zero =>
        intro l hl c hc
        cases l with
        | nil => rw [chunkList_nil] at hc; simp at hc
        | cons x xs => simp at hl
    | succ n ih =>
        intro l hl c hc
        cases l with
        | nil => rw [chunkList_nil] at hc; simp at hc
        | cons x xs =>
            have hdl : ((x :: xs).drop k).length ≤ n := by
              simp only [List.length_drop, List.length_cons]
              simp only [List.length_cons] at hl
              omega
            rw [chunkList_cons k x xs hk] at hc
            rcases (by simpa using hc :
                c = (x :: xs).take k ∨ c ∈ chunkList k ((x :: xs).drop k)) with h1 | h1
            · rw [h1]
              simpa using List.length_take_le k (x :: xs)
            · exact ih _ hdl c h1
  exact fun l c hc => H l.length l (le_refl _) c hc

theorem chunkList_mem_mem {α : Type} (k : Nat) (hk : k ≠ 0) (l c : List α) (x : α)
    (hc : c ∈ chunkList k l) (hx : x ∈ c) : x ∈ l := by
  rw [← chunkList_flatten k hk l]
  exact List.mem_flatten.mpr ⟨c, hc, hx⟩

theorem chunkList_map {α β : Type} (f : α → β) (k : Nat) (hk : k ≠ 0) :
    ∀ l : List α, chunkList k (l.map f) = (chunkList k l).map (List.map f) := by
  have H : ∀ (n : Nat) (l : List α), l.length ≤ n →
      chunkList k (l.map f) = (chunkList k l).map (List.map f) := by
    intro n
    induction n with
    | zero =>
        intro l hl
        cases l with
        | nil => rw [List.map_nil, chunkList_nil, chunkList_nil]; rfl
        | cons x xs => simp at hl
    | succ n ih =>
        intro l hl
        cases l with
        | nil => rw [List.map_nil, chunkList_nil, chunkList_nil]; rfl
        | cons x xs =>
            have hdl : ((x :: xs).drop k).length ≤ n := by
              simp only [List.length_drop, List.length_cons]
              simp only [List.length_cons] at hl
              omega
            rw [List.map_cons, chunkList_cons k (f x) (xs.map f) hk,
              chunkList_cons k x xs hk]
            rw [show (f x :: xs.map f) = (x :: xs).map f by simp]
            rw [← List.map_take, ← List.map_drop, ih _ hdl]
            simp
  exact fun l => H l.length l (le_refl _)

/-! ### The insert phase on a buffer of well-formed leaf rows -/

theorem renderRows_eq (cfg : SqlCfg) :
    ∀ rows : List (List String × Dict),
      (∀ row ∈ rows, row.1 ≠ [] ∧
        (∀ k ∈ cfg.metric_list, ∃ v, row.2.lookup k = some v)) →
      renderRows cfg (rows.map (fun row => rowOfLeaf row.1 row.2))
        = some (rows.map (fun row => renderLeafVals cfg row.1 row.2)) := by
  intro rows
  induction rows with
  | nil => intro _; rfl
  | cons row rest ih =>
      intro h
      obtain ⟨hne, hcov⟩ := h row (by simp)
      simp only [List.map_cons]
      unfold renderRows
      rw [renderInsertRow_eq cfg row.1 row.2 hne hcov,
        ih (fun q hq => h q (by simp [hq]))]

theorem insChunks_eq (cfg : SqlCfg) :
    ∀ (chunks : List (List (List String × Dict))) (st : SqlSt),
      (∀ c ∈ chunks, ∀ row ∈ c, row.1 ≠ [] ∧
        row.1.length = cfg.dimension_list.length ∧
        (∀ k ∈ cfg.metric_list, ∃ v, row.2.lookup k = some v)) →
      insChunks cfg (chunks.map (fun c => c.map (fun row => rowOfLeaf row.1 row.2))) st
        = { st with
            ops := st.ops ++ chunks.map (fun c =>
              DbOp.insertRows (cfg.dimension_list ++ cfg.metric_list)
                (c.map (fun row => renderLeafVals cfg row.1 row.2)))
            store := st.store ++ chunks.flatten.map (fun row =>
              (cfg.dimension_list ++ cfg.metric_list).zip
                (renderLeafVals cfg row.1 row.2)) } := by
  intro chunks
  induction chunks with
  | nil =>
      intro st _
      simp [insChunks]
  | cons c rest ih =>
      intro st h
      have hc : ∀ row ∈ c, row.1 ≠ [] ∧
          row.1.length = cfg.dimension_list.length ∧
          (∀ k ∈ cfg.metric_list, ∃ v, row.2.lookup k = some v) :=
        h c (by simp)
      have hrest : ∀ c0 ∈ rest, ∀ row ∈ c0, row.1 ≠ [] ∧
          row.1.length = cfg.dimension_list.length ∧
          (∀ k ∈ cfg.metric_list, ∃ v, row.2.lookup k = some v) :=
        fun c0 hc0 => h c0 (by simp [hc0])
      have hrender : renderRows cfg (c.map (fun row => rowOfLeaf row.1 row.2))
          = some (c.map (fun row => renderLeafVals cfg row.1 row.2)) :=
        renderRows_eq cfg c (fun row hrow => ⟨(hc row hrow).1, (hc row hrow).2.2⟩)
      have hall : (c.map (fun row => renderLeafVals cfg row.1 row.2)).all
          (fun r => r.length == (cfg.dimension_list ++ cfg.metric_list).length) = true := by
        rw [List.all_eq_true]
        intro r hr
        obtain ⟨row, hrow, hrq⟩ := List.mem_map.mp hr
        rw [beq_iff_eq, ← hrq]
        exact renderLeafVals_length cfg row.1 row.2 (hc row hrow).1 (hc row hrow).2.1
      simp only [List.map_cons]
      unfold insChunks
      rw [hrender]
      simp only [hall, if_pos]
      rw [ih _ hrest]
      simp only [List.map_cons, List.flatten_cons, List.map_append]
      congr 1 <;> simp [List.append_assoc]

theorem insertBulk_eq (cfg : SqlCfg) (st : SqlSt)
    (buffered : List (List String × Dict))
    (hins : st.insert_list = buffered.map (fun row => rowOfLeaf row.1 row.2))
    (hd0 : 0 < cfg.dimension_list.length)
    (hF : cfg.dimension_list.length + cfg.metric_list.length ≤ 65535)
    (hrows : ∀ row ∈ buffered, row.1 ≠ [] ∧
      row.1.length = cfg.dimension_list.length ∧
      (∀ k ∈ cfg.metric_list, ∃ v, row.2.lookup k = some v)) :
    insertBulk cfg st
      = { st with
          ops := st.ops ++
            (chunkList (65535 / (cfg.dimension_list.length + cfg.metric_list.length))
                buffered).map (fun c =>
              DbOp.insertRows (cfg.dimension_list ++ cfg.metric_list)
                (c.map (fun row => renderLeafVals cfg row.1 row.2)))
          store := st.store ++ buffered.map (fun row =>
            (cfg.dimension_list ++ cfg.metric_list).zip
              (renderLeafVals cfg row.1 row.2)) } := by
  have hFpos : 0 < cfg.dimension_list.length + cfg.metric_list.length := by omega
  have hmq : 65535 / (cfg.dimension_list.length + cfg.metric_list.length) ≠ 0 := by
    have := Nat.le_div_iff_mul_le hFpos |>.mpr (by omega :
      1 * (cfg.dimension_list.length + cfg.metric_list.length) ≤ 65535)
    omega
  unfold insertBulk
  rw [if_neg hmq, hins, chunkList_map _ _ hmq]
  rw [show ((chunkList (65535 / (cfg.dimension_list.length + cfg.metric_list.length))
      buffered).map (List.map (fun row => rowOfLeaf row.1 row.2)))
    = ((chunkList (65535 / (cfg.dimension_list.length + cfg.metric_list.length))
      buffered).map (fun c => c.map (fun row => rowOfLeaf row.1 row.2))) from rfl]
  rw [insChunks_eq cfg _ st
    (fun c hcmem row hrow => hrows row (chunkList_mem_mem _ hmq _ _ _ hcmem hrow))]
  rw [chunkList_flatten _ hmq, hins]

/-! ### The whole flush, characterized against the initial store -/

theorem rowsOf_facts (cfg : SqlCfg) (data : Dict)
    (hwf : wfL cfg cfg.dimension_list.length data = true) :
    ∀ row ∈ rowsOf cfg data,
      row.1.length = cfg.dimension_list.length ∧
      (∀ x ∈ row.2.map Prod.fst, x ∈ cfg.metric_list) ∧
      (∀ met ∈ cfg.metric_list, ∃ v, row.2.lookup met = some v) ∧
      (row.2.map Prod.fst).Nodup := by
  intro row hrow
  rw [rowsOf] at hrow
  have h := rowsGo_facts cfg data cfg.dimension_list.length data []
    (wfL_to_remWF cfg _ data hwf) row hrow
  refine ⟨?_, h.2.1, h.2.2.1, h.2.2.2⟩
  simpa using h.1

theorem foldl_rowStep_connOpen (cfg : SqlCfg) (rows : List (List String × Dict)) :
    ∀ st : SqlSt, (List.foldl (rowStep cfg noFault) st rows).connOpen = st.connOpen := by
  induction rows with
  | nil => intro st; rfl
  | cons r rest ih =>
      intro st
      rw [List.foldl_cons, ih]
      unfold rowStep
      rw [selectLine_connOpen]

theorem recurse_parse_char (cfg : SqlCfg) (data : Dict) (S : Store)
    (hd0 : 0 < cfg.dimension_list.length)
    (hdisj : ∀ f ∈ cfg.dimension_list, f ∉ cfg.metric_list)
    (hwf : wfL cfg cfg.dimension_list.length data = true)
    (hF : cfg.dimension_list.length + cfg.metric_list.length ≤ 65535) :
    (recurse_parse cfg noFault data S).errored = false ∧
    (recurse_parse cfg noFault data S).connOpen = false ∧
    (recurse_parse cfg noFault data S).insert_list
      = ((rowsOf cfg data).filter (noMatchIn cfg S)).map
          (fun row => rowOfLeaf row.1 row.2) ∧
    (recurse_parse cfg noFault data S).store
      = S.map (applyRows cfg S (rowsOf cfg data))
          ++ ((rowsOf cfg data).filter (noMatchIn cfg S)).map (fun row =>
            (cfg.dimension_list ++ cfg.metric_list).zip
              (renderLeafVals cfg row.1 row.2)) ∧
    (recurse_parse cfg noFault data S).ops
      = ((rowsOf cfg data).map (opsOfRow cfg S)).flatten
          ++ (chunkList (65535 / (cfg.dimension_list.length + cfg.metric_list.length))
              ((rowsOf cfg data).filter (noMatchIn cfg S))).map (fun c =>
            DbOp.insertRows (cfg.dimension_list ++ cfg.metric_list)
              (c.map (fun row => renderLeafVals cfg row.1 row.2))) := by
  have hrem : remWF cfg cfg.dimension_list.length data data :=
    wfL_to_remWF cfg _ data hwf
  obtain ⟨rest2, heq, _⟩ := recList_eq_fold cfg data cfg.dimension_list.length data [] 0 []
    { db_line := [], insert_list := [], store := S, ops := [],
      nsel := 0, errored := false, connOpen := true }
    hrem rfl rfl (by simp) rfl
  rw [show rowsGo cfg [] data data = rowsOf cfg data from rfl] at heq
  have hrows : ∀ row ∈ rowsOf cfg data,
      (∀ x ∈ row.2.map Prod.fst, x ∈ cfg.metric_list) ∧
      row.1.length = cfg.dimension_list.length :=
    fun row hrow => ⟨(rowsOf_facts cfg data hwf row hrow).2.1,
      (rowsOf_facts cfg data hwf row hrow).1⟩
  obtain ⟨hfst, hfins, hfops⟩ := foldl_rowStep_char cfg hdisj (rowsOf cfg data)
    { db_line := [], insert_list := [], store := S, ops := [],
      nsel := 0, errored := false, connOpen := true } hrows
  have hferr : (List.foldl (rowStep cfg noFault)
      { db_line := [], insert_list := [], store := S, ops := [],
        nsel := 0, errored := false, connOpen := true } (rowsOf cfg data)).errored
      = false := by
    rw [foldl_rowStep_errored]
  have hfconn : (List.foldl (rowStep cfg noFault)
      { db_line := [], insert_list := [], store := S, ops := [],
        nsel := 0, errored := false, connOpen := true } (rowsOf cfg data)).connOpen
      = true := by
    rw [foldl_rowStep_connOpen]
  unfold recurse_parse
  simp only [heq]
  simp only [List.map_nil, List.nil_append]
  rw [if_neg (by simpa using hferr)]
  by_cases hbuf : ((rowsOf cfg data).filter (noMatchIn cfg S)) = []
  · have hinsnil : (List.foldl (rowStep cfg noFault)
        { db_line := [], insert_list := [], store := S, ops := [],
          nsel := 0, errored := false, connOpen := true } (rowsOf cfg data)).insert_list
        = [] := by
      rw [hfins, hbuf]
      simp
    rw [if_neg (show ¬(0 < (List.foldl (rowStep cfg noFault)
        { db_line := [], insert_list := [], store := S, ops := [],
          nsel := 0, errored := false, connOpen := true }
        (rowsOf cfg data)).insert_list.length) by rw [hinsnil]; simp)]
    rw [if_neg (by simpa using hferr)]
    refine ⟨by simpa using hferr, rfl, ?_, ?_, ?_⟩
    · rw [hbuf]
      simpa using hinsnil
    · rw [hbuf]
      simpa using hfst
    · rw [hbuf, chunkList_nil]
      simpa using hfops
  · have hinslen : 0 < (List.foldl (rowStep cfg noFault)
        { db_line := [], insert_list := [], store := S, ops := [],
          nsel := 0, errored := false, connOpen := true } (rowsOf cfg data)).insert_list.length := by
      rw [hfins]
      simp only [List.nil_append, List.length_map]
      exact List.length_pos.mpr hbuf
    rw [if_pos (show 0 < (List.foldl (rowStep cfg noFault)
        { db_line := [], insert_list := [], store := S, ops := [],
          nsel := 0, errored := false, connOpen := true }
        (rowsOf cfg data)).insert_list.length from hinslen)]
    have hbrows : ∀ row ∈ (rowsOf cfg data).filter (noMatchIn cfg S), row.1 ≠ [] ∧
        row.1.length = cfg.dimension_list.length ∧
        (∀ k ∈ cfg.metric_list, ∃ v, row.2.lookup k = some v) := by
      intro row hrow
      have hmem := (List.mem_filter.mp hrow).1
      have hf := rowsOf_facts cfg data hwf row hmem
      refine ⟨?_, hf.1, hf.2.2.1⟩
      intro hnil
      have hlen := hf.1
      rw [hnil] at hlen
      simp at hlen
      omega
    have hbulk := insertBulk_eq cfg
      { List.foldl (rowStep cfg noFault)
          { db_line := [], insert_list := [], store := S, ops := [],
            nsel := 0, errored := false, connOpen := true } (rowsOf cfg data) with
        db_line := rest2 }
      ((rowsOf cfg data).filter (noMatchIn cfg S))
      (by simpa using hfins) hd0 hF hbrows
    simp only [] at hbulk
    rw [hbulk]
    rw [if_neg (by simpa using hferr)]
    refine ⟨by simpa using hferr, rfl, by simpa using hfins, ?_, ?_⟩
    all_goals simp only []
    · rw [hfst]
    · rw [hfops]
      simp

/-! ### The tuples contained in the emitted insert statements -/

theorem insertedTuples_append (a b : List DbOp) :
    insertedTuples (a ++ b) = insertedTuples a ++ insertedTuples b := by
  unfold insertedTuples
  rw [List.filterMap_append, List.flatten_append]

theorem insertedTuples_of_no_insert (a : List DbOp)
    (h : ∀ op ∈ a, isInsertOp op = false) : insertedTuples a = [] := by
  unfold insertedTuples
  have h1 : a.filterMap (fun op =>
      match op with | .insertRows _ rs => some rs | _ => none) = [] := by
    rw [List.filterMap_eq_nil]
    intro op hop
    cases op with
    | select p => rfl
    | update s p => rfl
    | insertRows c r => exact absurd (h _ hop) (by simp [isInsertOp])
  rw [h1]
  rfl

theorem opsOfRow_no_insert (cfg : SqlCfg) (S : Store) (row : List String × Dict) :
    ∀ op ∈ opsOfRow cfg S row, isInsertOp op = false := by
  intro op hop
  unfold opsOfRow at hop
  by_cases hc : 1 ≤ (S.filter (rowMatches (selectPred cfg (rowOfLeaf row.1 row.2)))).length
  · rw [if_pos hc] at hop
    rcases (by simpa using hop) with h | h <;> rw [h] <;> rfl
  · rw [if_neg hc] at hop
    have h : op = DbOp.select (selectPred cfg (rowOfLeaf row.1 row.2)) := by
      simpa using hop
    rw [h]
    rfl

theorem flatten_map_map {α β : Type} (f : α → β) :
    ∀ l : List (List α), (l.map (fun c => c.map f)).flatten = l.flatten.map f := by
  intro l
  induction l with
  | nil => rfl
  | cons c rest ih =>
      simp only [List.map_cons, List.flatten_cons, ih, List.map_append]

theorem insertedTuples_map_insertRows (cols : List String) :
    ∀ l : List (List (List SqlVal)),
      insertedTuples (l.map (fun rs => DbOp.insertRows cols rs)) = l.flatten := by
  intro l
  induction l with
  | nil => rfl
  | cons rs rest ih =>
      unfold insertedTuples at ih ⊢
      simp only [List.map_cons, List.filterMap_cons, List.flatten_cons]
      rw [ih]

theorem recurse_parse_insertedTuples (cfg : SqlCfg) (data : Dict) (S : Store)
    (hd0 : 0 < cfg.dimension_list.length)
    (hdisj : ∀ f ∈ cfg.dimension_list, f ∉ cfg.metric_list)
    (hwf : wfL cfg cfg.dimension_list.length data = true)
    (hF : cfg.dimension_list.length + cfg.metric_list.length ≤ 65535) :
    insertedTuples (recurse_parse cfg noFault data S).ops
      = ((rowsOf cfg data).filter (noMatchIn cfg S)).map
          (fun row => renderLeafVals cfg row.1 row.2) := by
  have hmq : 65535 / (cfg.dimension_list.length + cfg.metric_list.length) ≠ 0 := by
    have := Nat.le_div_iff_mul_le (by omega :
        0 < cfg.dimension_list.length + cfg.metric_list.length) |>.mpr (by omega :
      1 * (cfg.dimension_list.length + cfg.metric_list.length) ≤ 65535)
    omega
  obtain ⟨-, -, -, -, hops⟩ := recurse_parse_char cfg data S hd0 hdisj hwf hF
  rw [hops, insertedTuples_append]
  have h1 : insertedTuples (((rowsOf cfg data).map (opsOfRow cfg S)).flatten) = [] := by
    apply insertedTuples_of_no_insert
    intro op hop
    obtain ⟨l, hl, hop2⟩ := List.mem_flatten.mp hop
    obtain ⟨row, hrow, hleq⟩ := List.mem_map.mp hl
    exact opsOfRow_no_insert cfg S row op (hleq ▸ hop2)
  have h2 : ((chunkList (65535 / (cfg.dimension_list.length + cfg.metric_list.length))
        ((rowsOf cfg data).filter (noMatchIn cfg S))).map (fun c =>
      DbOp.insertRows (cfg.dimension_list ++ cfg.metric_list)
        (c.map (fun row => renderLeafVals cfg row.1 row.2))))
      = (((chunkList (65535 / (cfg.dimension_list.length + cfg.metric_list.length))
          ((rowsOf cfg data).filter (noMatchIn cfg S))).map (fun c =>
        c.map (fun row => renderLeafVals cfg row.1 row.2))).map (fun rs =>
          DbOp.insertRows (cfg.dimension_list ++ cfg.metric_list) rs)) := by
    rw [List.map_map]
    rfl
  rw [h1, h2, insertedTuples_map_insertRows, flatten_map_map,
    chunkList_flatten _ hmq]
  rfl

/-- **C3**: the bulk insert runs once over the buffer accumulated across
the whole flush — in the operation trace every insert statement comes
after every existence check and update — with `F` fields per row each
insert statement holds at most `65535 / F` rows, hence at most 65535
placeholders, and the insert statements cover the buffered rows exactly
once, in buffer order. -/
theorem batch_insert_ceiling (cfg : SqlCfg) (data : Dict) (S : Store)
    (hd0 : 0 < cfg.dimension_list.length)
    (hdisj : ∀ f ∈ cfg.dimension_list, f ∉ cfg.metric_list)
    (hwf : wfL cfg cfg.dimension_list.length data = true)
    (hF : cfg.dimension_list.length + cfg.metric_list.length ≤ 65535) :
    ∃ pre post,
      (recurse_parse cfg noFault data S).ops = pre ++ post ∧
      (∀ op ∈ pre, isInsertOp op = false) ∧
      (∀ op ∈ post, isInsertOp op = true) ∧
      (∀ cols rs, DbOp.insertRows cols rs ∈ post →
        rs.length * (cfg.dimension_list.length + cfg.metric_list.length) ≤ 65535) ∧
      insertedTuples (recurse_parse cfg noFault data S).ops
        = ((rowsOf cfg data).filter (noMatchIn cfg S)).map
            (fun row => renderLeafVals cfg row.1 row.2) := by
  have hmq : 65535 / (cfg.dimension_list.length + cfg.metric_list.length) ≠ 0 := by
    have := Nat.le_div_iff_mul_le (by omega :
        0 < cfg.dimension_list.length + cfg.metric_list.length) |>.mpr (by omega :
      1 * (cfg.dimension_list.length + cfg.metric_list.length) ≤ 65535)
    omega
  obtain ⟨-, -, -, -, hops⟩ := recurse_parse_char cfg data S hd0 hdisj hwf hF
  refine ⟨((rowsOf cfg data).map (opsOfRow cfg S)).flatten,
    (chunkList (65535 / (cfg.dimension_list.length + cfg.metric_list.length))
        ((rowsOf cfg data).filter (noMatchIn cfg S))).map (fun c =>
      DbOp.insertRows (cfg.dimension_list ++ cfg.metric_list)
        (c.map (fun row => renderLeafVals cfg row.1 row.2))),
    hops, ?_, ?_, ?_, recurse_parse_insertedTuples cfg data S hd0 hdisj hwf hF⟩
  · intro op hop
    obtain ⟨l, hl, hop2⟩ := List.mem_flatten.mp hop
    obtain ⟨row, hrow, hleq⟩ := List.mem_map.mp hl
    exact opsOfRow_no_insert cfg S row op (hleq ▸ hop2)
  · intro op hop
    obtain ⟨c, hcmem, hceq⟩ := List.mem_map.mp hop
    rw [← hceq]
    rfl
  · intro cols rs hmem
    obtain ⟨c, hcmem, hceq⟩ := List.mem_map.mp hmem
    have hrs : rs = c.map (fun row => renderLeafVals cfg row.1 row.2) := by
      injection hceq with h1 h2
      exact h2.symm
    have hclen : c.length ≤ 65535 / (cfg.dimension_list.length + cfg.metric_list.length) :=
      chunkList_chunk_le _ hmq _ c hcmem
    have hlen : rs.length ≤ 65535 / (cfg.dimension_list.length + cfg.metric_list.length) := by
      rw [hrs, List.length_map]
      exact hclen
    calc rs.length * (cfg.dimension_list.length + cfg.metric_list.length)
        ≤ (65535 / (cfg.dimension_list.length + cfg.metric_list.length))
            * (cfg.dimension_list.length + cfg.metric_list.length) :=
          Nat.mul_le_mul_right _ hlen
      _ ≤ 65535 := Nat.div_mul_le_self _ _

/-- **C10**: the buffered rows are stable — at batch-insert time the
pending buffer holds exactly the dimension-path-plus-metric-dict rows of
the leaves that failed their existence check against the pre-flush
store, in traversal order, and the tuples finally inserted are exactly
those rows' dimension and metric values. -/
theorem buffered_rows_stable (cfg : SqlCfg) (data : Dict) (S : Store)
    (hd0 : 0 < cfg.dimension_list.length)
    (hdisj : ∀ f ∈ cfg.dimension_list, f ∉ cfg.metric_list)
    (hwf : wfL cfg cfg.dimension_list.length data = true)
    (hF : cfg.dimension_list.length + cfg.metric_list.length ≤ 65535) :
    (recurse_parse cfg noFault data S).insert_list
      = ((rowsOf cfg data).filter (noMatchIn cfg S)).map
          (fun row => rowOfLeaf row.1 row.2) ∧
    insertedTuples (recurse_parse cfg noFault data S).ops
      = ((rowsOf cfg data).filter (noMatchIn cfg S)).map
          (fun row => renderLeafVals cfg row.1 row.2) :=
  ⟨(recurse_parse_char cfg data S hd0 hdisj hwf hF).2.2.1,
    recurse_parse_insertedTuples cfg data S hd0 hdisj hwf hF⟩

theorem batch_insert_ceiling_witness :
    (0 < (["a"] : List String).length ∧
     (∀ f ∈ (["a"] : List String), f ∉ (["m"] : List String)) ∧
     wfL ⟨"t", ["a"], ["m"]⟩ (["a"] : List String).length
       [("x", PyTree.dict [("m", PyTree.str "v")])] = true ∧
     (["a"] : List String).length + (["m"] : List String).length ≤ 65535) ∧
    (∃ pre post,
      (recurse_parse ⟨"t", ["a"], ["m"]⟩ noFault
          [("x", PyTree.dict [("m", PyTree.str "v")])] []).ops = pre ++ post ∧
      (∀ op ∈ pre, isInsertOp op = false) ∧
      (∀ op ∈ post, isInsertOp op = true) ∧
      (∀ cols rs, DbOp.insertRows cols rs ∈ post →
        rs.length * ((["a"] : List String).length + (["m"] : List String).length)
          ≤ 65535) ∧
      insertedTuples (recurse_parse ⟨"t", ["a"], ["m"]⟩ noFault
          [("x", PyTree.dict [("m", PyTree.str "v")])] []).ops
        = ((rowsOf ⟨"t", ["a"], ["m"]⟩
              [("x", PyTree.dict [("m", PyTree.str "v")])]).filter
            (noMatchIn ⟨"t", ["a"], ["m"]⟩ [])).map
            (fun row => renderLeafVals ⟨"t", ["a"], ["m"]⟩ row.1 row.2)) :=
  ⟨⟨by decide, by decide, by simp [wfL, childrenWF, nodupKeysB, leafEntryOK],
      by decide⟩,
    batch_insert_ceiling ⟨"t", ["a"], ["m"]⟩
      [("x", PyTree.dict [("m", PyTree.str "v")])] []
      (by decide) (by decide)
      (by simp [wfL, childrenWF, nodupKeysB, leafEntryOK]) (by decide)⟩

theorem buffered_rows_stable_witness :
    (0 < (["d"] : List String).length ∧
     (∀ f ∈ (["d"] : List String), f ∉ (["u"] : List String)) ∧
     wfL ⟨"e", ["d"], ["u"]⟩ (["d"] : List String).length
       [("2020", PyTree.dict [("u", PyTree.str "1")]),
        ("2021", PyTree.dict [("u", PyTree.str "2")])] = true ∧
     (["d"] : List String).length + (["u"] : List String).length ≤ 65535) ∧
    ((recurse_parse ⟨"e", ["d"], ["u"]⟩ noFault
        [("2020", PyTree.dict [("u", PyTree.str "1")]),
         ("2021", PyTree.dict [("u", PyTree.str "2")])] []).insert_list
      = ((rowsOf ⟨"e", ["d"], ["u"]⟩
            [("2020", PyTree.dict [("u", PyTree.str "1")]),
             ("2021", PyTree.dict [("u", PyTree.str "2")])]).filter
          (noMatchIn ⟨"e", ["d"], ["u"]⟩ [])).map
          (fun row => rowOfLeaf row.1 row.2) ∧
     insertedTuples (recurse_parse ⟨"e", ["d"], ["u"]⟩ noFault
        [("2020", PyTree.dict [("u", PyTree.str "1")]),
         ("2021", PyTree.dict [("u", PyTree.str "2")])] []).ops
      = ((rowsOf ⟨"e", ["d"], ["u"]⟩
            [("2020", PyTree.dict [("u", PyTree.str "1")]),
             ("2021", PyTree.dict [("u", PyTree.str "2")])]).filter
          (noMatchIn ⟨"e", ["d"], ["u"]⟩ [])).map
          (fun row => renderLeafVals ⟨"e", ["d"], ["u"]⟩ row.1 row.2)) :=
  ⟨⟨by decide, by decide, by simp [wfL, childrenWF, nodupKeysB, leafEntryOK],
      by decide⟩,
    buffered_rows_stable ⟨"e", ["d"], ["u"]⟩
      [("2020", PyTree.dict [("u", PyTree.str "1")]),
       ("2021", PyTree.dict [("u", PyTree.str "2")])] []
      (by decide) (by decide)
      (by simp [wfL, childrenWF, nodupKeysB, leafEntryOK]) (by decide)⟩

/-! ### Predicate shapes on well-formed, NULL-free leaf rows -/

theorem predVal_eq_some (sl : Slot) (h : sl ≠ Slot.val "NULL") :
    predVal sl = some (renderSlot sl) := by
  unfold predVal
  rw [if_neg h]

theorem zipWith_predVal_congr :
    ∀ (ds : List String) (ss : List Slot),
      (∀ sl ∈ ss, sl ≠ Slot.val "NULL") →
      List.zipWith (fun dn sl => (dn, predVal sl)) ds ss
        = List.zipWith (fun dn sl => (dn, some (renderSlot sl))) ds ss := by
  intro ds
  induction ds with
  | nil => intro ss _; simp
  | cons d dt ih =>
      intro ss h
      cases ss with
      | nil => simp
      | cons s st =>
          simp only [List.zipWith_cons_cons]
          rw [predVal_eq_some s (h s (by simp)), ih st (fun sl hsl => h sl (by simp [hsl]))]

theorem selectPred_eq_updatePred (cfg : SqlCfg) (p0 : String) (ps : List String)
    (fm : Dict) (h : ∀ x ∈ ps, x ≠ "NULL") :
    selectPred cfg (rowOfLeaf (p0 :: ps) fm)
      = updatePred cfg (rowOfLeaf (p0 :: ps) fm) := by
  obtain ⟨tb, dl, ml⟩ := cfg
  cases dl with
  | nil => rfl
  | cons d0 dsx =>
      unfold rowOfLeaf selectPred updatePred
      simp only [List.map_cons, List.cons_append]
      congr 1
      apply zipWith_predVal_congr
      intro sl hsl
      rcases List.mem_append.mp hsl with h1 | h1
      · obtain ⟨x, hx, hxe⟩ := List.mem_map.mp h1
        rw [← hxe]
        intro hc
        injection hc with hc2
        exact h x hx hc2
      · have h2 : sl = Slot.map fm := by simpa using h1
        rw [h2]
        intro hc
        cases hc

theorem zipWith_append_left {β : Type} (f : String → Slot → β) :
    ∀ (ds : List String) (a b : List Slot), ds.length ≤ a.length →
      List.zipWith f ds (a ++ b) = List.zipWith f ds a := by
  intro ds
  induction ds with
  | nil => intro a b _; simp
  | cons d dt ih =>
      intro a b hl
      cases a with
      | nil => simp at hl
      | cons s st =>
          simp only [List.cons_append, List.zipWith_cons_cons]
          rw [ih st b (by simpa using hl)]

theorem zipWith_val_eq_pair :
    ∀ (ds ps : List String),
      List.zipWith (fun dn sl => (dn, some (renderSlot sl))) ds (ps.map Slot.val)
        = List.zipWith (fun d p => (d, (some p : SqlVal))) ds ps := by
  intro ds
  induction ds with
  | nil => intro ps; simp
  | cons d dt ih =>
      intro ps
      cases ps with
      | nil => simp
      | cons p pt =>
          simp only [List.map_cons, List.zipWith_cons_cons]
          rw [ih pt]
          rfl

theorem updatePred_rowOfLeaf_eq (cfg : SqlCfg) (p0 : String) (ps : List String)
    (fm : Dict) (hlen : cfg.dimension_list.length = ps.length + 1) :
    updatePred cfg (rowOfLeaf (p0 :: ps) fm)
      = List.zipWith (fun d p => (d, (some p : SqlVal)))
          cfg.dimension_list (p0 :: ps) := by
  obtain ⟨tb, dl, ml⟩ := cfg
  cases dl with
  | nil => simp at hlen
  | cons d0 dsx =>
      unfold rowOfLeaf updatePred
      simp only [List.map_cons, List.cons_append, List.zipWith_cons_cons]
      congr 1
      rw [zipWith_append_left _ dsx (ps.map Slot.val) [Slot.map fm]
        (by simp at hlen ⊢; omega)]
      exact zipWith_val_eq_pair dsx ps

theorem map_fst_zipWith_pairS :
    ∀ (ds ps : List String), ds.length ≤ ps.length →
      (List.zipWith (fun d p => (d, (some p : SqlVal))) ds ps).map Prod.fst = ds := by
  intro ds
  induction ds with
  | nil => intro ps _; simp
  | cons d dt ih =>
      intro ps hl
      cases ps with
      | nil => simp at hl
      | cons p pt =>
          simp only [List.zipWith_cons_cons, List.map_cons]
          rw [ih pt (by simpa using hl)]

theorem lookup_append_self_mem {α : Type} :
    ∀ (pred rest : List (String × α)) (p : String × α),
      (pred.map Prod.fst).Nodup → p ∈ pred →
      ((pred ++ rest).lookup p.1) = some p.2 := by
  intro pred
  induction pred with
  | nil => intro rest p _ hp; simp at hp
  | cons q qt ih =>
      intro rest p hnd hp
      rw [List.map_cons, List.nodup_cons] at hnd
      rcases List.mem_cons.mp hp with h1 | h1
      · subst h1
        rw [List.cons_append, lookup_cons_eval, if_pos rfl]
      · have hne : p.1 ≠ q.1 := by
          intro hc
          exact hnd.1 (hc ▸ List.mem_map_of_mem Prod.fst h1)
        rw [List.cons_append, lookup_cons_eval, if_neg hne]
        exact ih rest p hnd.2 h1

theorem rowMatches_self_append (pred rest : List (String × SqlVal))
    (hnd : (pred.map Prod.fst).Nodup) :
    rowMatches pred (pred ++ rest) = true := by
  unfold rowMatches
  rw [List.all_eq_true]
  intro p hp
  rw [lookup_append_self_mem pred rest p hnd hp]
  simp

theorem zip_pred_pin :
    ∀ (ds ps qs : List String) (r : StoreRow),
      ds.length = ps.length → ds.length = qs.length →
      rowMatches (List.zipWith (fun d p => (d, (some p : SqlVal))) ds ps) r = true →
      rowMatches (List.zipWith (fun d p => (d, (some p : SqlVal))) ds qs) r = true →
      ps = qs := by
  intro ds
  induction ds with
  | nil =>
      intro ps qs r h1 h2 _ _
      cases ps with
      | cons p pt => simp at h1
      | nil =>
          cases qs with
          | cons q qt => simp at h2
          | nil => rfl
  | cons d dt ih =>
      intro ps qs r h1 h2 hm1 hm2
      cases ps with
      | nil => simp at h1
      | cons p pt =>
          cases qs with
          | nil => simp at h2
          | cons q qt =>
              unfold rowMatches at hm1 hm2
              simp only [List.zipWith_cons_cons, List.all_cons, Bool.and_eq_true,
                beq_iff_eq] at hm1 hm2
              have hpq : p = q := by
                have := hm1.1.symm.trans hm2.1
                simpa using this
              rw [hpq]
              have htl := ih pt qt r (by simpa using h1) (by simpa using h2)
                (by unfold rowMatches; exact hm1.2) (by unfold rowMatches; exact hm2.2)
              rw [htl]

theorem zip_append_eq {α β : Type} :
    ∀ (l1 : List α) (l2 : List β) (r1 : List α) (r2 : List β),
      l1.length = l2.length →
      (l1 ++ r1).zip (l2 ++ r2) = l1.zip l2 ++ r1.zip r2 := by
  intro l1
  induction l1 with
  | nil =>
      intro l2 r1 r2 h
      cases l2 with
      | cons b bt => simp at h
      | nil => simp
  | cons a at1 ih =>
      intro l2 r1 r2 h
      cases l2 with
      | nil => simp at h
      | cons b bt =>
          simp only [List.cons_append, List.zip_cons_cons]
          rw [ih bt r1 r2 (by simpa using h)]

theorem zip_map_someS :
    ∀ (ds ps : List String),
      ds.zip (ps.map (fun p => (some p : SqlVal)))
        = List.zipWith (fun d p => (d, (some p : SqlVal))) ds ps := by
  intro ds
  induction ds with
  | nil => intro ps; simp
  | cons d dt ih =>
      intro ps
      cases ps with
      | nil => simp
      | cons p pt =>
          simp only [List.map_cons, List.zip_cons_cons, List.zipWith_cons_cons]
          rw [ih pt]

theorem inserted_row_eq (cfg : SqlCfg) (p0 : String) (ps : List String) (fm : Dict)
    (hlen : cfg.dimension_list.length = ps.length + 1) :
    (cfg.dimension_list ++ cfg.metric_list).zip (renderLeafVals cfg (p0 :: ps) fm)
      = List.zipWith (fun d p => (d, (some p : SqlVal)))
          cfg.dimension_list (p0 :: ps)
        ++ cfg.metric_list.zip (cfg.metric_list.map (fun k =>
            metricVal ((fm.lookup k).getD (PyTree.str "NULL")))) := by
  simp only [renderLeafVals]
  rw [show (some p0 :: (ps.map some ++ cfg.metric_list.map (fun k =>
        metricVal ((fm.lookup k).getD (PyTree.str "NULL")))))
      = (((p0 :: ps).map (fun p => (some p : SqlVal)))
          ++ cfg.metric_list.map (fun k =>
            metricVal ((fm.lookup k).getD (PyTree.str "NULL")))) by simp]
  rw [zip_append_eq _ _ _ _ (by simp [hlen])]
  rw [zip_map_someS]

theorem lookup_zip_map_self (g : String → SqlVal) :
    ∀ (mets : List String) (k : String), k ∈ mets →
      ((mets.zip (mets.map g)).lookup k) = some (g k) := by
  intro mets
  induction mets with
  | nil => intro k hk; simp at hk
  | cons m mt ih =>
      intro k hk
      simp only [List.map_cons, List.zip_cons_cons]
      rw [lookup_cons_eval]
      by_cases h : k = m
      · rw [if_pos h, h]
      · rw [if_neg h]
        exact ih k (by rcases List.mem_cons.mp hk with h1 | h1; exact absurd h1 h; exact h1)

theorem nodup_lookup_of_mem {α : Type} (m : List (String × α)) (p : String × α)
    (hnd : (m.map Prod.fst).Nodup) (hp : p ∈ m) : m.lookup p.1 = some p.2 := by
  have := lookup_append_self_mem m [] p hnd hp
  simpa using this

theorem nodup_map_inj {α β : Type} (f : α → β) :
    ∀ (l : List α), (l.map f).Nodup → ∀ a ∈ l, ∀ b ∈ l, f a = f b → a = b := by
  intro l
  induction l with
  | nil => intro _ a ha; simp at ha
  | cons x xs ih =>
      intro hnd a ha b hb hfab
      rw [List.map_cons, List.nodup_cons] at hnd
      rcases List.mem_cons.mp ha with ha1 | ha1 <;>
        rcases List.mem_cons.mp hb with hb1 | hb1
      · rw [ha1, hb1]
      · subst ha1
        exact absurd (hfab ▸ List.mem_map_of_mem f hb1) hnd.1
      · subst hb1
        exact absurd (hfab ▸ List.mem_map_of_mem f ha1) hnd.1
      · exact ih hnd.2 a ha1 b hb1 hfab

/-! ### The second application of the fold fixes the store -/

theorem applyRows_lookup_dim (cfg : SqlCfg)
    (hdisj : ∀ f ∈ cfg.dimension_list, f ∉ cfg.metric_list) (S0 : Store) :
    ∀ (rows : List (List String × Dict)) (r : StoreRow) (f : String),
      (∀ B ∈ rows, ∀ x ∈ B.2.map Prod.fst, x ∈ cfg.metric_list) →
      f ∈ cfg.dimension_list →
      (applyRows cfg S0 rows r).lookup f = r.lookup f := by
  intro rows
  induction rows with
  | nil => intro r f _ _; rfl
  | cons B rest ih =>
      intro r f hkeys hf
      unfold applyRows
      rw [List.foldl_cons]
      have h1 := ih (rowEffect cfg S0 B r) f
        (fun q hq => hkeys q (by simp [hq])) hf
      unfold applyRows at h1
      rw [h1]
      exact rowEffect_lookup_dim cfg hdisj S0 B r f (hkeys B (by simp)) hf

theorem rowMatches_dims_applyRows (cfg : SqlCfg)
    (hdisj : ∀ f ∈ cfg.dimension_list, f ∉ cfg.metric_list) (S0 : Store)
    (rows : List (List String × Dict)) (r : StoreRow)
    (pred : List (String × SqlVal))
    (hkeys : ∀ B ∈ rows, ∀ x ∈ B.2.map Prod.fst, x ∈ cfg.metric_list)
    (hpred : ∀ p ∈ pred, p.1 ∈ cfg.dimension_list) :
    rowMatches pred (applyRows cfg S0 rows r) = rowMatches pred r := by
  apply rowMatches_congr
  intro p hp
  exact applyRows_lookup_dim cfg hdisj S0 rows r p.1 hkeys (hpred p hp)

theorem filter_length_map_applyRows (cfg : SqlCfg)
    (hdisj : ∀ f ∈ cfg.dimension_list, f ∉ cfg.metric_list) (S0 : Store)
    (rows : List (List String × Dict)) (S : Store)
    (pred : List (String × SqlVal))
    (hkeys : ∀ B ∈ rows, ∀ x ∈ B.2.map Prod.fst, x ∈ cfg.metric_list)
    (hpred : ∀ p ∈ pred, p.1 ∈ cfg.dimension_list) :
    ((S.map (applyRows cfg S0 rows)).filter (rowMatches pred)).length
      = (S.filter (rowMatches pred)).length := by
  apply length_filter_map_congr
  intro r
  exact rowMatches_dims_applyRows cfg hdisj S0 rows r pred hkeys hpred

theorem rowMatches_dims_applySets (cfg : SqlCfg)
    (hdisj : ∀ f ∈ cfg.dimension_list, f ∉ cfg.metric_list)
    (sets : List (String × SqlVal)) (r : StoreRow)
    (pred : List (String × SqlVal))
    (hsets : ∀ x ∈ sets.map Prod.fst, x ∈ cfg.metric_list)
    (hpred : ∀ p ∈ pred, p.1 ∈ cfg.dimension_list) :
    rowMatches pred (applySets sets r) = rowMatches pred r := by
  apply rowMatches_congr
  intro p hp
  apply applySets_lookup_not_mem
  intro hc
  exact hdisj p.1 (hpred p hp) (hsets p.1 hc)

theorem applyRows_fix (cfg : SqlCfg) (S0 : Store) :
    ∀ (rows : List (List String × Dict)) (r : StoreRow),
      (∀ B ∈ rows, rowMatches (updatePred cfg (rowOfLeaf B.1 B.2)) r = true →
        applySets (B.2.map (fun p => (p.1, metricVal p.2))) r = r) →
      applyRows cfg S0 rows r = r := by
  intro rows
  induction rows with
  | nil => intro r _; rfl
  | cons B rest ih =>
      intro r h
      unfold applyRows
      rw [List.foldl_cons]
      have hB : rowEffect cfg S0 B r = r := by
        unfold rowEffect
        by_cases hm : rowMatches (updatePred cfg (rowOfLeaf B.1 B.2)) r = true
        · by_cases hc : 1 ≤ (S0.filter
              (rowMatches (selectPred cfg (rowOfLeaf B.1 B.2)))).length
          · rw [if_pos hc, if_pos hm]
            exact h B (by simp) hm
          · rw [if_neg hc]
        · by_cases hc : 1 ≤ (S0.filter
              (rowMatches (selectPred cfg (rowOfLeaf B.1 B.2)))).length
          · rw [if_pos hc, if_neg hm]
          · rw [if_neg hc]
      rw [hB]
      exact ih r (fun q hq => h q (by simp [hq]))

theorem mem_zipWith_key {β : Type} (g : Slot → β) :
    ∀ (ds : List String) (ss : List Slot),
      ∀ p ∈ List.zipWith (fun dn sl => (dn, g sl)) ds ss, p.1 ∈ ds := by
  intro ds
  induction ds with
  | nil => intro ss p hp; simp at hp
  | cons d dt ih =>
      intro ss p hp
      cases ss with
      | nil => simp at hp
      | cons s st =>
          rw [List.zipWith_cons_cons] at hp
          rcases List.mem_cons.mp hp with h1 | h1
          · rw [h1]
            simp
          · exact List.mem_cons_of_mem _ (ih st p h1)

theorem updatePred_keys_sub (cfg : SqlCfg) (line : List Slot) :
    ∀ p ∈ updatePred cfg line, p.1 ∈ cfg.dimension_list := by
  intro p hp
  obtain ⟨tb, dl, ml⟩ := cfg
  cases dl with
  | nil => cases line <;> simp [updatePred] at hp
  | cons d0 dsx =>
      cases line with
      | nil => simp [updatePred] at hp
      | cons s0 ss =>
          unfold updatePred at hp
          rcases List.mem_cons.mp hp with h1 | h1
          · rw [h1]
            simp
          · exact List.mem_cons_of_mem _
              (mem_zipWith_key (fun sl => some (renderSlot sl)) dsx ss p h1)

theorem applyRows_twice (cfg : SqlCfg) (S S1 : Store)
    (hdisj : ∀ f ∈ cfg.dimension_list, f ∉ cfg.metric_list) :
    ∀ (rows : List (List String × Dict)) (r0 : StoreRow),
      (∀ B ∈ rows, (∀ x ∈ B.2.map Prod.fst, x ∈ cfg.metric_list) ∧
        (B.2.map Prod.fst).Nodup ∧
        selectPred cfg (rowOfLeaf B.1 B.2) = updatePred cfg (rowOfLeaf B.1 B.2)) →
      (∀ A ∈ rows, ∀ B ∈ rows,
        rowMatches (updatePred cfg (rowOfLeaf A.1 A.2)) r0 = true →
        rowMatches (updatePred cfg (rowOfLeaf B.1 B.2)) r0 = true → A = B) →
      rows.Nodup →
      r0 ∈ S →
      applyRows cfg S1 rows (applyRows cfg S rows r0) = applyRows cfg S rows r0 := by
  intro rows
  induction rows with
  | nil => intro r0 _ _ _ _; rfl
  | cons A rest ih =>
      intro r0 hfacts huniq hnd hr0
      obtain ⟨hkeysA, hndA, hsuA⟩ := hfacts A (by simp)
      have hrestfacts : ∀ B ∈ rest, (∀ x ∈ B.2.map Prod.fst, x ∈ cfg.metric_list) ∧
          (B.2.map Prod.fst).Nodup ∧
          selectPred cfg (rowOfLeaf B.1 B.2) = updatePred cfg (rowOfLeaf B.1 B.2) :=
        fun B hB => hfacts B (by simp [hB])
      have hrestkeys : ∀ B ∈ rest, ∀ x ∈ B.2.map Prod.fst, x ∈ cfg.metric_list :=
        fun B hB => (hrestfacts B hB).1
      have hANotMem : A ∉ rest := (List.nodup_cons.mp hnd).1
      have hndrest : rest.Nodup := (List.nodup_cons.mp hnd).2
      by_cases hm : rowMatches (updatePred cfg (rowOfLeaf A.1 A.2)) r0 = true
      · have hc : 1 ≤ (S.filter
            (rowMatches (selectPred cfg (rowOfLeaf A.1 A.2)))).length := by
          have hmem : r0 ∈ S.filter (rowMatches (selectPred cfg (rowOfLeaf A.1 A.2))) :=
            List.mem_filter.mpr ⟨hr0, by rw [hsuA]; exact hm⟩
          have := List.length_pos.mpr (List.ne_nil_of_mem hmem)
          omega
        have hstepA : rowEffect cfg S A r0
            = applySets (A.2.map (fun p => (p.1, metricVal p.2))) r0 := by
          unfold rowEffect
          rw [if_pos hc, if_pos hm]
        have hsetskeys : ∀ x ∈ (A.2.map (fun p => (p.1, metricVal p.2))).map Prod.fst,
            x ∈ cfg.metric_list := by
          intro x hx
          apply hkeysA
          simpa [List.map_map] using hx
        have hmatch_r1 : ∀ B : List String × Dict,
            rowMatches (updatePred cfg (rowOfLeaf B.1 B.2))
              (applySets (A.2.map (fun p => (p.1, metricVal p.2))) r0)
            = rowMatches (updatePred cfg (rowOfLeaf B.1 B.2)) r0 := by
          intro B
          exact rowMatches_dims_applySets cfg hdisj _ r0 _ hsetskeys
            (updatePred_keys_sub cfg _)
        have hnomatch : ∀ B ∈ rest,
            rowMatches (updatePred cfg (rowOfLeaf B.1 B.2))
              (applySets (A.2.map (fun p => (p.1, metricVal p.2))) r0) = false := by
          intro B hB
          rw [hmatch_r1 B]
          by_contra hcne
          have hBt : rowMatches (updatePred cfg (rowOfLeaf B.1 B.2)) r0 = true := by
            revert hcne
            cases rowMatches (updatePred cfg (rowOfLeaf B.1 B.2)) r0 <;> simp
          have hAB : A = B := huniq A (by simp) B (by simp [hB]) hm hBt
          exact hANotMem (hAB ▸ hB)
        have hrun1 : applyRows cfg S (A :: rest) r0
            = applySets (A.2.map (fun p => (p.1, metricVal p.2))) r0 := by
          have h0 : applyRows cfg S (A :: rest) r0
              = applyRows cfg S rest (rowEffect cfg S A r0) := rfl
          rw [h0, hstepA]
          apply applyRows_fix
          intro B hB hBm
          exact absurd hBm (by simp [hnomatch B hB])
        have hstepA2 : rowEffect cfg S1 A
            (applySets (A.2.map (fun p => (p.1, metricVal p.2))) r0)
            = applySets (A.2.map (fun p => (p.1, metricVal p.2))) r0 := by
          unfold rowEffect
          by_cases hc1 : 1 ≤ (S1.filter
              (rowMatches (selectPred cfg (rowOfLeaf A.1 A.2)))).length
          · rw [if_pos hc1,
              if_pos (show rowMatches (updatePred cfg (rowOfLeaf A.1 A.2))
                (applySets (A.2.map (fun p => (p.1, metricVal p.2))) r0) = true from by
                  rw [hmatch_r1 A]; exact hm)]
            exact applySets_idem _ _ (by simpa [List.map_map] using hndA)
          · rw [if_neg hc1]
        rw [hrun1]
        have h0s : applyRows cfg S1 (A :: rest)
            (applySets (A.2.map (fun p => (p.1, metricVal p.2))) r0)
            = applyRows cfg S1 rest (rowEffect cfg S1 A
                (applySets (A.2.map (fun p => (p.1, metricVal p.2))) r0)) := rfl
        rw [h0s, hstepA2]
        apply applyRows_fix
        intro B hB hBm
        exact absurd hBm (by simp [hnomatch B hB])
      · have hstepA0 : rowEffect cfg S A r0 = r0 := by
          unfold rowEffect
          by_cases hc : 1 ≤ (S.filter
              (rowMatches (selectPred cfg (rowOfLeaf A.1 A.2)))).length
          · rw [if_pos hc, if_neg hm]
          · rw [if_neg hc]
        have hrun1 : applyRows cfg S (A :: rest) r0 = applyRows cfg S rest r0 := by
          have h0 : applyRows cfg S (A :: rest) r0
              = applyRows cfg S rest (rowEffect cfg S A r0) := rfl
          rw [h0, hstepA0]
        have hX : rowMatches (updatePred cfg (rowOfLeaf A.1 A.2))
            (applyRows cfg S rest r0) = false := by
          rw [rowMatches_dims_applyRows cfg hdisj S rest r0 _ hrestkeys
            (updatePred_keys_sub cfg _)]
          simpa using hm
        have hstepA2 : rowEffect cfg S1 A (applyRows cfg S rest r0)
            = applyRows cfg S rest r0 := by
          unfold rowEffect
          by_cases hc1 : 1 ≤ (S1.filter
              (rowMatches (selectPred cfg (rowOfLeaf A.1 A.2)))).length
          · rw [if_pos hc1, if_neg (by rw [hX]; simp)]
          · rw [if_neg hc1]
        rw [hrun1]
        have h0s : applyRows cfg S1 (A :: rest) (applyRows cfg S rest r0)
            = applyRows cfg S1 rest (rowEffect cfg S1 A (applyRows cfg S rest r0)) := rfl
        rw [h0s, hstepA2]
        exact ih r0 hrestfacts
          (fun X hX2 Y hY2 => huniq X (by simp [hX2]) Y (by simp [hY2]))
          hndrest hr0

/-! ### The traversal produces distinct, NULL-free dimension paths -/

theorem rowsGo_path_extends (cfg : SqlCfg) :
    ∀ (remaining : Dict) (dataset : Dict) (path : List String),
      ∀ row ∈ rowsGo cfg path dataset remaining, ∃ suf, row.1 = path ++ suf := by
  intro remaining
  induction remaining using hasLeafD.induct with
  | case1 =>
      intro dataset path row hrow
      rw [rowsGo_nil] at hrow
      simp at hrow
  | case2 k0 s rest =>
      intro dataset path row hrow
      rw [rowsGo_cons_str] at hrow
      have h : row = (path, buildLeafMap cfg dataset) := by simpa using hrow
      subst h
      exact ⟨[], by simp⟩
  | case3 k0 sub rest ih1 ih2 =>
      intro dataset path row hrow
      rw [rowsGo_cons_dict] at hrow
      rcases List.mem_append.mp hrow with h | h
      · obtain ⟨suf, hsuf⟩ := ih1 sub (path ++ [k0]) row h
        exact ⟨k0 :: suf, by simp [hsuf]⟩
      · exact ih2 dataset path row h

theorem rowsGo_shape (cfg : SqlCfg) :
    ∀ (remaining : Dict) (k : Nat) (dataset : Dict) (path : List String),
      remWF cfg (k + 1) dataset remaining →
      ∀ row ∈ rowsGo cfg path dataset remaining,
        ∃ k0 suf, k0 ∈ remaining.map Prod.fst ∧ row.1 = path ++ k0 :: suf := by
  intro remaining
  induction remaining using hasLeafD.induct with
  | case1 =>
      intro k dataset path _ row hrow
      rw [rowsGo_nil] at hrow
      simp at hrow
  | case2 k0 s rest =>
      intro k dataset path hwf row hrow
      obtain ⟨sub, hsub, _⟩ := hwf (k0, PyTree.str s) (by simp)
      cases hsub
  | case3 k0 sub rest ih1 ih2 =>
      intro k dataset path hwf row hrow
      rw [rowsGo_cons_dict] at hrow
      rcases List.mem_append.mp hrow with h | h
      · obtain ⟨suf, hsuf⟩ := rowsGo_path_extends cfg sub sub (path ++ [k0]) row h
        refine ⟨k0, suf, by simp, ?_⟩
        rw [hsuf]
        simp
      · obtain ⟨k1, suf, hk1, hsuf⟩ := ih2 k dataset path
          (fun p hp => hwf p (by simp [hp])) row h
        exact ⟨k1, suf, by simp [hk1], hsuf⟩

theorem rowsGo_paths_nodup (cfg : SqlCfg) :
    ∀ (remaining : Dict) (k : Nat) (dataset : Dict) (path : List String),
      remWF cfg k dataset remaining →
      nodupKeysB remaining = true →
      ((rowsGo cfg path dataset remaining).map Prod.fst).Nodup := by
  intro remaining
  induction remaining using hasLeafD.induct with
  | case1 =>
      intro k dataset path _ _
      rw [rowsGo_nil]
      simp
  | case2 k0 s rest =>
      intro k dataset path hwf hnd
      cases k with
      | succ k' =>
          obtain ⟨sub, hsub, _⟩ := hwf (k0, PyTree.str s) (by simp)
          cases hsub
      | zero =>
          rw [rowsGo_cons_str]
          simp
  | case3 k0 sub rest ih1 ih2 =>
      intro k dataset path hwf hnd
      cases k with
      | zero =>
          obtain ⟨hleafwf, hsubset⟩ := hwf
          rw [wfL_zero, Bool.and_eq_true, List.all_eq_true] at hleafwf
          have := hleafwf.2 (k0, PyTree.dict sub) (hsubset _ (by simp))
          rw [leafEntryOK] at this
          simp at this
      | succ k' =>
          rw [rowsGo_cons_dict, List.map_append]
          obtain ⟨sub', hsub', hwfsub0⟩ := hwf (k0, PyTree.dict sub) (by simp)
          have hsub2 : PyTree.dict sub = PyTree.dict sub' := hsub'
          have hwfsub : wfL cfg k' sub = true := by
            injection hsub2 with heq2
            rw [heq2]
            exact hwfsub0
          have hndsub : nodupKeysB sub = true := by
            cases k' with
            | zero =>
                rw [wfL_zero, Bool.and_eq_true] at hwfsub
                exact hwfsub.1
            | succ k2 =>
                rw [wfL_succ, Bool.and_eq_true] at hwfsub
                exact hwfsub.1
          simp [nodupKeysB] at hnd
          have hk0notin : k0 ∉ rest.map Prod.fst := by
            intro hc
            obtain ⟨p, hp, hpe⟩ := List.mem_map.mp hc
            have hpp : (k0, p.2) = p := by
              rw [← hpe]
            exact hnd.1 p.2 (hpp ▸ hp)
          have h1 : ((rowsGo cfg (path ++ [k0]) sub sub).map Prod.fst).Nodup :=
            ih1 k' sub (path ++ [k0]) (wfL_to_remWF cfg k' sub hwfsub) hndsub
          have h2 : ((rowsGo cfg path dataset rest).map Prod.fst).Nodup :=
            ih2 (k' + 1) dataset path (fun p hp => hwf p (by simp [hp])) hnd.2
          rw [List.nodup_append]
          refine ⟨h1, h2, ?_⟩
          intro x hx1 hx2
          obtain ⟨row1, hrow1, hx1e⟩ := List.mem_map.mp hx1
          obtain ⟨row2, hrow2, hx2e⟩ := List.mem_map.mp hx2
          obtain ⟨suf1, hsuf1⟩ := rowsGo_path_extends cfg sub sub (path ++ [k0]) row1 hrow1
          obtain ⟨k1, suf2, hk1, hsuf2⟩ := rowsGo_shape cfg rest k' dataset path
            (fun p hp => hwf p (by simp [hp])) row2 hrow2
          have he : path ++ k0 :: suf1 = path ++ k1 :: suf2 := by
            calc path ++ k0 :: suf1 = row1.1 := by rw [hsuf1]; simp
              _ = x := hx1e
              _ = row2.1 := hx2e.symm
              _ = path ++ k1 :: suf2 := hsuf2
          have hks : k0 :: suf1 = k1 :: suf2 := by
            have hd := congrArg (fun l => List.drop path.length l) he
            simp only [List.drop_left] at hd
            exact hd
          injection hks with hk heq3
          exact hk0notin (hk ▸ hk1)
theorem rowsGo_noNull (cfg : SqlCfg) :
    ∀ (remaining : Dict) (k : Nat) (top : Bool) (dataset : Dict) (path : List String),
      remWF cfg k dataset remaining →
      noNullL k top remaining = true →
      (top = true → path = []) →
      (∀ x ∈ path.drop 1, x ≠ "NULL") →
      ∀ row ∈ rowsGo cfg path dataset remaining,
        ∀ x ∈ row.1.drop 1, x ≠ "NULL" := by
  intro remaining
  induction remaining using hasLeafD.induct with
  | case1 =>
      intro k top dataset path _ _ _ _ row hrow
      rw [rowsGo_nil] at hrow
      simp at hrow
  | case2 k0 s rest =>
      intro k top dataset path hwf hnn htop hP row hrow
      cases k with
      | succ k' =>
          obtain ⟨sub, hsub, _⟩ := hwf (k0, PyTree.str s) (by simp)
          cases hsub
      | zero =>
          rw [rowsGo_cons_str] at hrow
          have h : row = (path, buildLeafMap cfg dataset) := by simpa using hrow
          subst h
          exact hP
  | case3 k0 sub rest ih1 ih2 =>
      intro k top dataset path hwf hnn htop hP row hrow
      cases k with
      | zero =>
          obtain ⟨hleafwf, hsubset⟩ := hwf
          rw [wfL_zero, Bool.and_eq_true, List.all_eq_true] at hleafwf
          have := hleafwf.2 (k0, PyTree.dict sub) (hsubset _ (by simp))
          rw [leafEntryOK] at this
          simp at this
      | succ k' =>
          rw [rowsGo_cons_dict] at hrow
          have hnn2 : ((top || !(k0 == "NULL"))
              && noNullL k' false sub && noNullEntries k' top rest) = true := by
            have h0 : noNullL (k' + 1) top ((k0, PyTree.dict sub) :: rest)
                = ((top || !(k0 == "NULL"))
                  && noNullL k' false sub && noNullEntries k' top rest) := by
              simp only [noNullL, noNullEntries]
            rw [← h0]
            exact hnn
          rw [Bool.and_eq_true, Bool.and_eq_true] at hnn2
          obtain ⟨⟨hk0, hsubnn⟩, hrestnn⟩ := hnn2
          rcases List.mem_append.mp hrow with h | h
          · obtain ⟨sub', hsub', hwfsub0⟩ := hwf (k0, PyTree.dict sub) (by simp)
            have hsub2 : PyTree.dict sub = PyTree.dict sub' := hsub'
            have hwfsub : wfL cfg k' sub = true := by
              injection hsub2 with heq2
              rw [heq2]
              exact hwfsub0
            apply ih1 k' false sub (path ++ [k0])
              (wfL_to_remWF cfg k' sub hwfsub) hsubnn (by simp) ?hPnew row h
            case hPnew =>
              intro x hx
              cases path with
              | nil =>
                  simp at hx
              | cons p0 ps =>
                  rw [List.cons_append, List.drop_one, List.tail_cons] at hx
                  rcases List.mem_append.mp hx with h1 | h1
                  · exact hP x (by simpa using h1)
                  · have hx0 : x = k0 := by simpa using h1
                    have htf : top = false := by
                      cases htopv : top with
                      | false => rfl
                      | true => cases htop htopv
                    rw [htf] at hk0
                    rw [hx0]
                    simpa using hk0
          · apply ih2 (k' + 1) top dataset path
              (fun p hp => hwf p (by simp [hp]))
              (by simp only [noNullL]; exact hrestnn)
              htop hP row h
theorem inserted_matches (cfg : SqlCfg) (p0 : String) (ps : List String) (fm : Dict)
    (hdnd : cfg.dimension_list.Nodup)
    (hlen : cfg.dimension_list.length = ps.length + 1) :
    rowMatches (updatePred cfg (rowOfLeaf (p0 :: ps) fm))
      ((cfg.dimension_list ++ cfg.metric_list).zip (renderLeafVals cfg (p0 :: ps) fm))
      = true := by
  rw [updatePred_rowOfLeaf_eq cfg p0 ps fm hlen, inserted_row_eq cfg p0 ps fm hlen]
  apply rowMatches_self_append
  rw [map_fst_zipWith_pairS _ _ (by simp; omega)]
  exact hdnd

theorem inserted_fix (cfg : SqlCfg) (p0 : String) (ps : List String) (fm : Dict)
    (hdisj : ∀ f ∈ cfg.dimension_list, f ∉ cfg.metric_list)
    (hlen : cfg.dimension_list.length = ps.length + 1)
    (hknd : (fm.map Prod.fst).Nodup)
    (hkeys : ∀ x ∈ fm.map Prod.fst, x ∈ cfg.metric_list) :
    applySets (fm.map (fun p => (p.1, metricVal p.2)))
      ((cfg.dimension_list ++ cfg.metric_list).zip (renderLeafVals cfg (p0 :: ps) fm))
      = (cfg.dimension_list ++ cfg.metric_list).zip
          (renderLeafVals cfg (p0 :: ps) fm) := by
  apply applySets_of_lookup
  intro q hq
  obtain ⟨p, hp, hpe⟩ := List.mem_map.mp hq
  rw [inserted_row_eq cfg p0 ps fm hlen]
  have hq1 : q.1 = p.1 := by rw [← hpe]
  have hq2 : q.2 = metricVal p.2 := by rw [← hpe]
  have hmem : p.1 ∈ cfg.metric_list := hkeys p.1 (List.mem_map_of_mem _ hp)
  have hnone : (List.zipWith (fun d p => (d, (some p : SqlVal)))
      cfg.dimension_list (p0 :: ps)).lookup q.1 = none := by
    rw [lookup_eq_none_iff]
    rw [map_fst_zipWith_pairS _ _ (by simp; omega)]
    rw [hq1]
    intro hc
    exact hdisj p.1 hc hmem
  rw [lookup_append_of_none _ _ _ hnone]
  rw [hq1, lookup_zip_map_self _ _ _ hmem]
  rw [nodup_lookup_of_mem fm p hknd hp, hq2]
  rfl

/-- **C2 (amended)**: flush is idempotent on NULL-free well-formed
trees — for a RecordTree whose depth matches the dimension count, whose
leaf keys are declared metrics, with duplicate-free keys, at least one
dimension, distinct dimension names disjoint from the metric names, no
dimension value below the first level equal to the string `"NULL"`, and
at most 65535 fields per row, re-flushing the tree against the store
produced by the first flush buffers nothing, issues zero insert tuples,
completes without error and leaves the store exactly as the first flush
left it. -/
theorem flush_idempotent (cfg : SqlCfg) (data : Dict) (S : Store)
    (hd0 : 0 < cfg.dimension_list.length)
    (hdisj : ∀ f ∈ cfg.dimension_list, f ∉ cfg.metric_list)
    (hdnd : cfg.dimension_list.Nodup)
    (hwf : wfL cfg cfg.dimension_list.length data = true)
    (hnn : noNullL cfg.dimension_list.length true data = true)
    (hF : cfg.dimension_list.length + cfg.metric_list.length ≤ 65535) :
    (recurse_parse cfg noFault data
        (recurse_parse cfg noFault data S).store).store
      = (recurse_parse cfg noFault data S).store ∧
    (recurse_parse cfg noFault data
        (recurse_parse cfg noFault data S).store).insert_list = [] ∧
    insertedTuples (recurse_parse cfg noFault data
        (recurse_parse cfg noFault data S).store).ops = [] ∧
    (recurse_parse cfg noFault data
        (recurse_parse cfg noFault data S).store).errored = false := by
  have hrowfacts := rowsOf_facts cfg data hwf
  have hkeysAll : ∀ B ∈ rowsOf cfg data, ∀ x ∈ B.2.map Prod.fst, x ∈ cfg.metric_list :=
    fun B hB => (hrowfacts B hB).2.1
  have hnoNull : ∀ row ∈ rowsOf cfg data, ∀ x ∈ row.1.drop 1, x ≠ "NULL" := by
    intro row hrow
    rw [rowsOf] at hrow
    exact rowsGo_noNull cfg data cfg.dimension_list.length true data []
      (wfL_to_remWF cfg _ data hwf) hnn (fun _ => rfl) (by simp) row hrow
  have hsu : ∀ row ∈ rowsOf cfg data,
      selectPred cfg (rowOfLeaf row.1 row.2)
        = updatePred cfg (rowOfLeaf row.1 row.2) := by
    intro row hrow
    obtain ⟨hlen, -, -, -⟩ := hrowfacts row hrow
    cases hr1 : row.1 with
    | nil =>
        rw [hr1] at hlen
        simp at hlen
        omega
    | cons p0 ps =>
        apply selectPred_eq_updatePred
        intro x hx
        exact hnoNull row hrow x (by rw [hr1]; simpa using hx)
  have hzip : ∀ row ∈ rowsOf cfg data,
      updatePred cfg (rowOfLeaf row.1 row.2)
        = List.zipWith (fun d p => (d, (some p : SqlVal)))
            cfg.dimension_list row.1 := by
    intro row hrow
    obtain ⟨hlen, -, -, -⟩ := hrowfacts row hrow
    cases hr1 : row.1 with
    | nil =>
        rw [hr1] at hlen
        simp at hlen
        omega
    | cons p0 ps =>
        rw [hr1] at hlen
        simp at hlen
        apply updatePred_rowOfLeaf_eq
        omega
  have hndkeys : nodupKeysB data = true := by
    obtain ⟨n, hn⟩ : ∃ n, cfg.dimension_list.length = n + 1 :=
      ⟨cfg.dimension_list.length - 1, by omega⟩
    have hwf2 := hwf
    rw [hn, wfL_succ, Bool.and_eq_true] at hwf2
    exact hwf2.1
  have hpathsnd : ((rowsOf cfg data).map Prod.fst).Nodup :=
    rowsGo_paths_nodup cfg data cfg.dimension_list.length data []
      (wfL_to_remWF cfg _ data hwf) hndkeys
  have hrowsnd : (rowsOf cfg data).Nodup := hpathsnd.of_map
  have huniq : ∀ r : StoreRow, ∀ A ∈ rowsOf cfg data, ∀ B ∈ rowsOf cfg data,
      rowMatches (updatePred cfg (rowOfLeaf A.1 A.2)) r = true →
      rowMatches (updatePred cfg (rowOfLeaf B.1 B.2)) r = true → A = B := by
    intro r A hA B hB hmA hmB
    have h1 : A.1 = B.1 := by
      apply zip_pred_pin cfg.dimension_list A.1 B.1 r
      · exact ((hrowfacts A hA).1).symm
      · exact ((hrowfacts B hB).1).symm
      · rw [← hzip A hA]
        exact hmA
      · rw [← hzip B hB]
        exact hmB
    exact nodup_map_inj Prod.fst (rowsOf cfg data) hpathsnd A hA B hB h1
  obtain ⟨herr1, hconn1, hins1, hstore1, hops1⟩ :=
    recurse_parse_char cfg data S hd0 hdisj hwf hF
  have hK1 : ∀ row ∈ rowsOf cfg data,
      noMatchIn cfg (recurse_parse cfg noFault data S).store row = false := by
    intro row hrow
    unfold noMatchIn
    rw [hstore1, List.filter_append, List.length_append]
    simp only [decide_eq_false_iff_not]
    intro hzero
    by_cases hb : noMatchIn cfg S row = true
    · have hrm : rowMatches (selectPred cfg (rowOfLeaf row.1 row.2))
          ((cfg.dimension_list ++ cfg.metric_list).zip
            (renderLeafVals cfg row.1 row.2)) = true := by
        obtain ⟨hlen, -, -, -⟩ := hrowfacts row hrow
        cases hr1 : row.1 with
        | nil =>
            rw [hr1] at hlen
            simp at hlen
            omega
        | cons p0 ps =>
            rw [hr1] at hlen
            simp at hlen
            have hsu2 := hsu row hrow
            rw [hr1] at hsu2
            rw [hsu2]
            exact inserted_matches cfg p0 ps row.2 hdnd (by omega)
      have hmem : ((cfg.dimension_list ++ cfg.metric_list).zip
            (renderLeafVals cfg row.1 row.2))
          ∈ (((rowsOf cfg data).filter (noMatchIn cfg S)).map (fun row =>
              (cfg.dimension_list ++ cfg.metric_list).zip
                (renderLeafVals cfg row.1 row.2))).filter
            (rowMatches (selectPred cfg (rowOfLeaf row.1 row.2))) :=
        List.mem_filter.mpr
          ⟨List.mem_map_of_mem _ (List.mem_filter.mpr ⟨hrow, hb⟩), hrm⟩
      have := List.length_pos.mpr (List.ne_nil_of_mem hmem)
      omega
    · have hbf : noMatchIn cfg S row = false := by simpa using hb
      unfold noMatchIn at hbf
      simp only [decide_eq_false_iff_not] at hbf
      have hcnt : ((S.map (applyRows cfg S (rowsOf cfg data))).filter
          (rowMatches (selectPred cfg (rowOfLeaf row.1 row.2)))).length
          = (S.filter (rowMatches (selectPred cfg (rowOfLeaf row.1 row.2)))).length :=
        filter_length_map_applyRows cfg hdisj S (rowsOf cfg data) S _ hkeysAll
          (selectPred_keys_mem cfg row (hrowfacts row hrow).1)
      omega
  have hfilt2 : (rowsOf cfg data).filter
      (noMatchIn cfg (recurse_parse cfg noFault data S).store) = [] := by
    rw [List.filter_eq_nil_iff]
    intro row hrow
    simp [hK1 row hrow]
  have hfix : ∀ r ∈ (recurse_parse cfg noFault data S).store,
      applyRows cfg (recurse_parse cfg noFault data S).store
        (rowsOf cfg data) r = r := by
    intro r hr
    rw [hstore1] at hr
    rcases List.mem_append.mp hr with h | h
    · obtain ⟨r0, hr0, hre⟩ := List.mem_map.mp h
      rw [← hre]
      exact applyRows_twice cfg S _ hdisj (rowsOf cfg data) r0
        (fun B hB => ⟨hkeysAll B hB, (hrowfacts B hB).2.2.2, hsu B hB⟩)
        (huniq r0) hrowsnd hr0
    · obtain ⟨A, hAf, hre⟩ := List.mem_map.mp h
      have hA : A ∈ rowsOf cfg data := (List.mem_filter.mp hAf).1
      rw [← hre]
      apply applyRows_fix
      intro B hB hBm
      obtain ⟨hlenA, -, -, hkndA⟩ := hrowfacts A hA
      have hselfA : rowMatches (updatePred cfg (rowOfLeaf A.1 A.2))
          ((cfg.dimension_list ++ cfg.metric_list).zip
            (renderLeafVals cfg A.1 A.2)) = true := by
        cases hr1 : A.1 with
        | nil =>
            rw [hr1] at hlenA
            simp at hlenA
            omega
        | cons p0 ps =>
            rw [hr1] at hlenA
            simp at hlenA
            exact inserted_matches cfg p0 ps A.2 hdnd (by omega)
      have hAB : B = A := huniq _ B hB A hA hBm hselfA
      rw [hAB]
      cases hr1 : A.1 with
      | nil =>
          rw [hr1] at hlenA
          simp at hlenA
          omega
      | cons p0 ps =>
          rw [hr1] at hlenA
          simp at hlenA
          exact inserted_fix cfg p0 ps A.2 hdisj (by omega) hkndA (hkeysAll A hA)
  obtain ⟨herr2, hconn2, hins2, hstore2, hops2⟩ :=
    recurse_parse_char cfg data (recurse_parse cfg noFault data S).store
      hd0 hdisj hwf hF
  refine ⟨?_, ?_, ?_, herr2⟩
  · rw [hstore2, hfilt2]
    simp only [List.map_nil, List.append_nil]
    calc ((recurse_parse cfg noFault data S).store).map
          (applyRows cfg (recurse_parse cfg noFault data S).store (rowsOf cfg data))
        = ((recurse_parse cfg noFault data S).store).map (fun r => r) :=
          List.map_congr_left hfix
      _ = (recurse_parse cfg noFault data S).store := List.map_id _
  · rw [hins2, hfilt2]
    rfl
  · rw [recurse_parse_insertedTuples cfg data
      (recurse_parse cfg noFault data S).store hd0 hdisj hwf hF, hfilt2]
    rfl

theorem flush_idempotent_witness :
    (0 < (["d"] : List String).length ∧
     (∀ f ∈ (["d"] : List String), f ∉ (["m"] : List String)) ∧
     (["d"] : List String).Nodup ∧
     wfL ⟨"w", ["d"], ["m"]⟩ (["d"] : List String).length
       [("2020", PyTree.dict [("m", PyTree.str "5")])] = true ∧
     noNullL (["d"] : List String).length true
       [("2020", PyTree.dict [("m", PyTree.str "5")])] = true ∧
     (["d"] : List String).length + (["m"] : List String).length ≤ 65535) ∧
    ((recurse_parse ⟨"w", ["d"], ["m"]⟩ noFault
        [("2020", PyTree.dict [("m", PyTree.str "5")])]
        (recurse_parse ⟨"w", ["d"], ["m"]⟩ noFault
          [("2020", PyTree.dict [("m", PyTree.str "5")])] []).store).store
      = (recurse_parse ⟨"w", ["d"], ["m"]⟩ noFault
          [("2020", PyTree.dict [("m", PyTree.str "5")])] []).store ∧
     (recurse_parse ⟨"w", ["d"], ["m"]⟩ noFault
        [("2020", PyTree.dict [("m", PyTree.str "5")])]
        (recurse_parse ⟨"w", ["d"], ["m"]⟩ noFault
          [("2020", PyTree.dict [("m", PyTree.str "5")])] []).store).insert_list = [] ∧
     insertedTuples (recurse_parse ⟨"w", ["d"], ["m"]⟩ noFault
        [("2020", PyTree.dict [("m", PyTree.str "5")])]
        (recurse_parse ⟨"w", ["d"], ["m"]⟩ noFault
          [("2020", PyTree.dict [("m", PyTree.str "5")])] []).store).ops = [] ∧
     (recurse_parse ⟨"w", ["d"], ["m"]⟩ noFault
        [("2020", PyTree.dict [("m", PyTree.str "5")])]
        (recurse_parse ⟨"w", ["d"], ["m"]⟩ noFault
          [("2020", PyTree.dict [("m", PyTree.str "5")])] []).store).errored = false) :=
  ⟨⟨by decide, by decide, by decide,
      by simp [wfL, childrenWF, nodupKeysB, leafEntryOK],
      by simp [noNullL, noNullEntries], by decide⟩,
    flush_idempotent ⟨"w", ["d"], ["m"]⟩
      [("2020", PyTree.dict [("m", PyTree.str "5")])] []
      (by decide) (by decide) (by decide)
      (by simp [wfL, childrenWF, nodupKeysB, leafEntryOK])
      (by simp [noNullL, noNullEntries]) (by decide)⟩

end DataGather
